import Mathlib

set_option maxHeartbeats 1000000

/- Verification development for the TBO-TP2 B-tree repository.

   Two variants of the engine are embedded:
   - namespace Disk: the file-backed (persistent) variant.  The binary file
     is modelled as a map from slot index to node record plus the slot-count
     header; pointer mutation becomes explicit state passing; C loops over
     array segments become the helper copyInto; unbounded recursion and
     while-loops take fuel, where running out of fuel is reported through the
     io-failure status (a terminating run never exhausts a large enough fuel).
   - namespace Mem: the in-memory variant (second revision of btree.c).
     Nodes form an inductive tree; mutation through pointers returned by the
     search is modelled by rebuilding the tree along the search path; a
     null-pointer dereference (undefined behaviour) is modelled as the
     result none.

   Machine integers: keys and payloads are C ints, modelled as Int; counts
   and slot indices are size_t values that remain tiny in every considered
   run, modelled as Nat (with C int loop indices that are provably
   non-negative also as Nat). -/

/-- Copies src into dst starting at position start, one element at a time:
    the C loop pattern dst[start + i] = src[i] for i = 0 .. src.length - 1.
    A write that falls outside dst is dropped (List.set out of range is the
    identity); the corresponding C write would be out of bounds. -/
def copyInto (dst : List α) (start : Nat) : List α → List α
  | [] => dst
  | a :: rest => copyInto (dst.set start a) (start + 1) rest

/-- Status codes from btree.h. -/
def BTREE_SUCCESS : Int := 0

def BTREE_ERROR_ALLOC : Int := -1

def BTREE_ERROR_NOT_FOUND : Int := -2

def BTREE_ERROR_DUPLICATE : Int := -3

def BTREE_ERROR_INVALID_PARAM : Int := -4

/-- Modelled from the spec: the persistent source also returns a distinct
    io-failure status (its btree.h revision is not among the sources); only
    distinctness from the other status codes matters. -/
def BTREE_ERROR_IOFAIL : Int := -5

/-- The left-to-right scan loop shared by both search routines:
    i = 0; while (i < n_keys and key > keys[i]) i = i + 1; applied to the
    first n_keys entries of the key array. -/
def scan_idx (key : Int) : List Int → Nat
  | [] => 0
  | k :: rest => if key > k then scan_idx key rest + 1 else 0

/-- The right-to-left scan of the insertion routines:
    i = n_keys - 1; while (i >= 0 and key < keys[i]) i = i - 1; the returned
    value is the insertion slot i + 1. -/
def insert_pos (keys : List Int) (n : Nat) (key : Int) : Nat :=
  n - ((keys.take n).reverse.takeWhile (fun k => key < k)).length

/-- Linear scan for an exact key match (node_keyidx / node_key_idx): the
    position of the first entry equal to key, if any. -/
def key_index (key : Int) : List Int → Option Nat
  | [] => none
  | k :: rest => if k = key then some 0 else (key_index key rest).map (· + 1)

namespace Disk

/-- A node record of the persistent variant (struct node of the unnamed
    source file).  keys and values have capacity order - 1, children has
    capacity order; unused entries hold the sentinel -1. -/
structure DNode where
  n_keys : Nat
  keys : List Int
  values : List Int
  bin_pos : Nat
  children : List Int
  is_leaf : Bool
deriving DecidableEq

/-- The binary file: a partial map from slot index to node record, the
    slot-count header, and the file size in slots (what ftell at SEEK_END
    divided by the slot size yields). -/
structure Store where
  nodes : Nat → Option DNode
  count : Nat
  fsize : Nat

/-- get_next_bin_pos: reads the slot count from the header. -/
def get_next_bin_pos (s : Store) : Nat :=
  s.count

/-- update_node_count: reads the header count, increments it, writes it
    back. -/
def update_node_count (s : Store) : Store :=
  { s with count := s.count + 1 }

/-- Byte sizes of the stored C types (LP64). -/
def sizeof_size_t : Nat := 8

def sizeof_bool : Nat := 1

def sizeof_int : Nat := 4

/-- calculate_offset: byte offset of the record of slot bin_pos.  Note the
    source multiplies the slot size by bin_pos without adding any header
    size.  Returns none for order < 3 (the source returns (size_t)-1, which
    every caller treats as failure). -/
def calculate_offset (bin_pos : Nat) (order : Nat) : Option Nat :=
  if order < 3 then none
  else
    some (bin_pos * (sizeof_size_t + sizeof_bool + sizeof_size_t +
      sizeof_int * (order - 1) + sizeof_int * (order - 1) + sizeof_int * order))

/-- disk_read: loads the record of the given slot.  The stored own-id field
    is read but the node handed back carries the requested position (the
    source passes file_pos to node_create).  A negative position or an order
    below 3 fails, as do reads of never-written slots. -/
def disk_read (s : Store) (order : Nat) (pos : Int) : Option DNode :=
  if pos < 0 ∨ order < 3 then none
  else (s.nodes pos.toNat).map (fun n => { n with bin_pos := pos.toNat })

/-- disk_write: persists the node at its own bin_pos and flushes; in the
    model the write itself cannot fail.  The file grows as needed. -/
def disk_write (s : Store) (node : DNode) : Store :=
  { s with
    nodes := fun p => if p = node.bin_pos then some node else s.nodes p,
    fsize := max s.fsize (node.bin_pos + 1) }

/-- node_create: fresh zeroed node; every key / value / child entry is the
    sentinel -1.  Fails (returns NULL) for order < 3. -/
def node_create (is_leaf : Bool) (order : Nat) (bin_pos : Nat) : Option DNode :=
  if order < 3 then none
  else
    some { n_keys := 0
           keys := List.replicate (order - 1) (-1)
           values := List.replicate (order - 1) (-1)
           bin_pos := bin_pos
           children := List.replicate order (-1)
           is_leaf := is_leaf }

/-- node_keyat: the key at position i, or -1 when i is out of range. -/
def node_keyat (node : DNode) (i : Nat) : Int :=
  if i < node.n_keys then node.keys.getD i 0 else -1

/-- node_search of the persistent variant.  The store is threaded through
    unchanged on every path, mirroring that the routine only ever calls
    disk_read; the first component is the found (node, index) pair or none.
    Fuel bounds the recursion depth; fuel 0 answers none like a failed
    read. -/
def node_search (order : Nat) : Nat → Store → Option DNode → Int →
    Option (DNode × Nat) × Store
  | _, s, none, _ => (none, s)
  | 0, s, some _, _ => (none, s)
  | fuel + 1, s, some node, key =>
    let i := scan_idx key (node.keys.take node.n_keys)
    if i < node.n_keys ∧ node.keys.getD i 0 = key then (some (node, i), s)
    else if node.is_leaf then (none, s)
    else if node.children.getD i (-1) = -1 then (none, s)
    else
      match disk_read s order (node.children.getD i (-1)) with
      | none => (none, s)
      | some child => node_search order fuel s (some child) key

/-- node_split_child of the persistent variant.  The caller keeps using the
    mutated parent and child objects, so both are returned next to the
    status and the store; the new right node is written to the store at slot
    get_next_bin_pos.  The node_print debugging output of the source is pure
    console noise and has no counterpart here. -/
def node_split_child (s : Store) (parent : DNode) (idx : Nat) (order : Nat)
    (child : DNode) : Int × Store × DNode × DNode :=
  if idx > parent.n_keys then (BTREE_ERROR_INVALID_PARAM, s, parent, child)
  else
    match node_create child.is_leaf order (get_next_bin_pos s) with
    | none => (BTREE_ERROR_ALLOC, s, parent, child)
    | some newNode0 =>
      let t := (order + 1) / 2
      let newN := child.n_keys - t
      let newKeys := copyInto newNode0.keys 0 ((child.keys.drop t).take newN)
      let newValues := copyInto newNode0.values 0 ((child.values.drop t).take newN)
      let childKeys := copyInto child.keys t (List.replicate newN (-1))
      let childValues := copyInto child.values t (List.replicate newN (-1))
      let newChildren :=
        if child.is_leaf then newNode0.children
        else copyInto newNode0.children 0 ((child.children.drop t).take (newN + 1))
      let childChildren :=
        if child.is_leaf then child.children
        else copyInto child.children t (List.replicate (newN + 1) (-1))
      let parentChildren :=
        (copyInto parent.children (idx + 2)
          ((parent.children.drop (idx + 1)).take (parent.n_keys - idx))).set
          (idx + 1) ((get_next_bin_pos s : Nat) : Int)
      let parentKeys :=
        (copyInto parent.keys (idx + 1)
          ((parent.keys.drop idx).take (parent.n_keys - idx))).set idx
          (childKeys.getD (t - 1) 0)
      let parentValues :=
        (copyInto parent.values (idx + 1)
          ((parent.values.drop idx).take (parent.n_keys - idx))).set idx
          (childValues.getD (t - 1) 0)
      let child' := { child with
        n_keys := t - 1
        keys := childKeys.set (t - 1) (-1)
        values := childValues.set (t - 1) (-1)
        children := childChildren }
      let newNode := { newNode0 with
        n_keys := newN, keys := newKeys, values := newValues,
        children := newChildren }
      let parent' := { parent with
        n_keys := parent.n_keys + 1
        keys := parentKeys
        values := parentValues
        children := parentChildren }
      let s1 := disk_write s child'
      let s2 := disk_write s1 newNode
      let s3 := disk_write s2 parent'
      (BTREE_SUCCESS, s3, parent', child')

/-- node_insert_non_full.  Besides status and store it returns the final
    value of the node object the caller handed in (the C routine mutates it
    through the pointer: directly in the leaf case, and by copying the
    re-read record over it after a split).  Fuel 0 stands for a run that
    would not terminate and is reported as an io failure. -/
def node_insert_non_full (order : Nat) :
    Nat → Store → DNode → Int → Int → Int × Store × DNode
  | 0, s, node, _, _ => (BTREE_ERROR_IOFAIL, s, node)
  | fuel + 1, s, node, key, value =>
    if node.is_leaf then
      let p := insert_pos node.keys node.n_keys key
      let ks := (copyInto node.keys (p + 1)
        ((node.keys.drop p).take (node.n_keys - p))).set p key
      let vs := (copyInto node.values (p + 1)
        ((node.values.drop p).take (node.n_keys - p))).set p value
      let node' := { node with keys := ks, values := vs, n_keys := node.n_keys + 1 }
      (BTREE_SUCCESS, disk_write s node', node')
    else
      let p := insert_pos node.keys node.n_keys key
      match disk_read s order (node.children.getD p (-1)) with
      | none => (BTREE_ERROR_IOFAIL, s, node)
      | some child =>
        if child.n_keys = order - 1 then
          match node_split_child s node p order child with
          | (r, s1, _, child') =>
            if r ≠ BTREE_SUCCESS then (r, s1, node)
            else
              match disk_read s1 order (node.bin_pos : Int) with
              | none => (BTREE_ERROR_IOFAIL, s1, node)
              | some u =>
                if u.keys.getD p 0 < key then
                  match disk_read s1 order (u.children.getD (p + 1) (-1)) with
                  | none => (BTREE_ERROR_IOFAIL, s1, u)
                  | some child2 =>
                    match node_insert_non_full order fuel s1 child2 key value with
                    | (r2, s2, _) => (r2, s2, u)
                else
                  match node_insert_non_full order fuel s1 child' key value with
                  | (r2, s2, _) => (r2, s2, u)
        else
          match node_insert_non_full order fuel s child key value with
          | (r2, s2, _) => (r2, s2, node)

/-- node_insert of the persistent variant.  Returns status, store, and the
    value of *root after the call (the root object can be mutated in place
    when the found node is the root itself, or replaced on creation and on a
    root split). -/
def node_insert (fuel : Nat) (s : Store) (root? : Option DNode) (key value : Int)
    (order : Nat) : Int × Store × Option DNode :=
  match root? with
  | some root =>
    match node_search order fuel s (some root) key with
    | (some (found, pos), s0) =>
      let found' := { found with values := found.values.set pos value }
      let s1 := disk_write s0 found'
      (BTREE_SUCCESS, s1, if found = root then some found' else some root)
    | (none, s0) =>
      if root.n_keys = order - 1 then
        match node_create false order (s0.fsize) with
        | none => (BTREE_ERROR_ALLOC, s0, some root)
        | some nr0 =>
          let nr := { nr0 with children := nr0.children.set 0 (root.bin_pos : Int) }
          match node_split_child s0 nr 0 order root with
          | (r, s1, nr', _) =>
            if r ≠ BTREE_SUCCESS then (r, s1, some root)
            else
              match node_insert_non_full order fuel s1 nr' key value with
              | (r2, s2, nr'') => (r2, s2, some nr'')
      else
        match node_insert_non_full order fuel s0 root key value with
        | (r2, s2, root') => (r2, s2, some root')
  | none =>
    match node_create true order s.fsize with
    | none => (BTREE_ERROR_ALLOC, s, none)
    | some nr0 =>
      let nr := { nr0 with
        keys := nr0.keys.set 0 key
        values := nr0.values.set 0 value
        n_keys := 1 }
      (BTREE_SUCCESS, disk_write s nr, some nr)

/-- The while-loop of node_predecessor: descend through the last child until
    a leaf is reached.  A missing child slot is an invalid parameter, a
    failed read an io failure; fuel 0 stands for a non-terminating walk. -/
def descend_last (s : Store) (order : Nat) : Nat → DNode → Except Int DNode
  | 0, _ => Except.error BTREE_ERROR_IOFAIL
  | fuel + 1, curr =>
    if curr.is_leaf then Except.ok curr
    else if curr.children.getD curr.n_keys (-1) = -1 then
      Except.error BTREE_ERROR_INVALID_PARAM
    else
      match disk_read s order (curr.children.getD curr.n_keys (-1)) with
      | none => Except.error BTREE_ERROR_IOFAIL
      | some nxt => descend_last s order fuel nxt

/-- The while-loop of node_successor: descend through the first child until
    a leaf is reached. -/
def descend_first (s : Store) (order : Nat) : Nat → DNode → Except Int DNode
  | 0, _ => Except.error BTREE_ERROR_IOFAIL
  | fuel + 1, curr =>
    if curr.is_leaf then Except.ok curr
    else if curr.children.getD 0 (-1) = -1 then
      Except.error BTREE_ERROR_INVALID_PARAM
    else
      match disk_read s order (curr.children.getD 0 (-1)) with
      | none => Except.error BTREE_ERROR_IOFAIL
      | some nxt => descend_first s order fuel nxt

/-- node_predecessor: rightmost key of the subtree left of keys[idx]. -/
def node_predecessor (fuel : Nat) (s : Store) (node : DNode) (idx : Nat)
    (order : Nat) : Except Int Int :=
  if idx ≥ node.n_keys then Except.error BTREE_ERROR_INVALID_PARAM
  else if node.is_leaf then Except.error BTREE_ERROR_INVALID_PARAM
  else
    match disk_read s order (node.children.getD idx (-1)) with
    | none => Except.error BTREE_ERROR_IOFAIL
    | some c =>
      match descend_last s order fuel c with
      | Except.error e => Except.error e
      | Except.ok leaf =>
        if leaf.n_keys = 0 then Except.error BTREE_ERROR_INVALID_PARAM
        else Except.ok (leaf.keys.getD (leaf.n_keys - 1) 0)

/-- node_successor: leftmost key of the subtree right of keys[idx]. -/
def node_successor (fuel : Nat) (s : Store) (node : DNode) (idx : Nat)
    (order : Nat) : Except Int Int :=
  if idx ≥ node.n_keys then Except.error BTREE_ERROR_INVALID_PARAM
  else if node.is_leaf then Except.error BTREE_ERROR_INVALID_PARAM
  else
    match disk_read s order (node.children.getD (idx + 1) (-1)) with
    | none => Except.error BTREE_ERROR_IOFAIL
    | some c =>
      match descend_first s order fuel c with
      | Except.error e => Except.error e
      | Except.ok leaf =>
        if leaf.n_keys = 0 then Except.error BTREE_ERROR_INVALID_PARAM
        else Except.ok (leaf.keys.getD 0 0)

/-- node_merge: pulls the separator keys[idx] of the parent down into the
    left child, appends the right child to it, closes the gap in the parent,
    and writes left child and parent back.  The right child's record is only
    dropped from memory; its slot in the store is never freed (the source
    computes ceil(order / 2.0) into a local t that it never uses). -/
def node_merge (s : Store) (parent : DNode) (idx : Nat) (order : Nat) :
    Int × Store :=
  if idx ≥ parent.n_keys then (BTREE_ERROR_INVALID_PARAM, s)
  else
    match disk_read s order (parent.children.getD idx (-1)) with
    | none => (BTREE_ERROR_IOFAIL, s)
    | some l =>
      match disk_read s order (parent.children.getD (idx + 1) (-1)) with
      | none => (BTREE_ERROR_IOFAIL, s)
      | some r =>
        let lKeys := copyInto (l.keys.set l.n_keys (parent.keys.getD idx 0))
          (l.n_keys + 1) (r.keys.take r.n_keys)
        let lValues := copyInto (l.values.set l.n_keys (parent.values.getD idx 0))
          (l.n_keys + 1) (r.values.take r.n_keys)
        let lChildren :=
          if l.is_leaf then l.children
          else copyInto l.children (l.n_keys + 1) (r.children.take (r.n_keys + 1))
        let l' := { l with
          keys := lKeys, values := lValues, children := lChildren,
          n_keys := l.n_keys + r.n_keys + 1 }
        let pKeys := (copyInto parent.keys idx
          ((parent.keys.drop (idx + 1)).take (parent.n_keys - 1 - idx))).set
          (parent.n_keys - 1) (-1)
        let pValues := (copyInto parent.values idx
          ((parent.values.drop (idx + 1)).take (parent.n_keys - 1 - idx))).set
          (parent.n_keys - 1) (-1)
        let pChildren := (copyInto parent.children (idx + 1)
          ((parent.children.drop (idx + 2)).take (parent.n_keys - 1 - idx))).set
          parent.n_keys (-1)
        let parent' := { parent with
          keys := pKeys, values := pValues, children := pChildren,
          n_keys := parent.n_keys - 1 }
        let s1 := disk_write s l'
        let s2 := disk_write s1 parent'
        (BTREE_SUCCESS, s2)

/-- node_remove_from_leaf: closes the gap over keys[idx] (and values), blanks
    the vacated last slot, decrements n_keys, writes the node back. -/
def node_remove_from_leaf (s : Store) (node : DNode) (idx : Nat) (order : Nat) :
    Int × Store :=
  if idx ≥ node.n_keys then (BTREE_ERROR_INVALID_PARAM, s)
  else
    let ks := (copyInto node.keys idx
      ((node.keys.drop (idx + 1)).take (node.n_keys - 1 - idx))).set
      (node.n_keys - 1) (-1)
    let vs := (copyInto node.values idx
      ((node.values.drop (idx + 1)).take (node.n_keys - 1 - idx))).set
      (node.n_keys - 1) (-1)
    let node' := { node with keys := ks, values := vs, n_keys := node.n_keys - 1 }
    (BTREE_SUCCESS, disk_write s node')

/-- node_ensure_min_keys: before the removal descends into children[idx],
    make sure that child has at least ceil(order / 2) keys; otherwise borrow
    from the left sibling, else from the right sibling, else merge with a
    sibling.  The sequential fall-through of the C if-chain is encoded with
    Option: none means the branch did not fire. -/
def node_ensure_min_keys (s : Store) (node : DNode) (idx : Nat) (order : Nat) :
    Int × Store :=
  if idx > node.n_keys then (BTREE_ERROR_INVALID_PARAM, s)
  else
    match disk_read s order (node.children.getD idx (-1)) with
    | none => (BTREE_ERROR_IOFAIL, s)
    | some child =>
      let t := (order + 1) / 2
      if t ≤ child.n_keys then (BTREE_SUCCESS, s)
      else
        let afterLeft : Option (Int × Store) :=
          if 0 < idx then
            match disk_read s order (node.children.getD (idx - 1) (-1)) with
            | none => some (BTREE_ERROR_IOFAIL, s)
            | some lsib =>
              if t ≤ lsib.n_keys then
                let childKeys := ((copyInto child.keys 1
                  (child.keys.take child.n_keys)).set 0 (node.keys.getD (idx - 1) 0))
                let childValues := ((copyInto child.values 1
                  (child.values.take child.n_keys)).set 0 (node.values.getD (idx - 1) 0))
                let childChildren :=
                  if child.is_leaf then child.children
                  else (copyInto child.children 1
                    (child.children.take (child.n_keys + 1))).set 0
                    (lsib.children.getD lsib.n_keys (-1))
                let nodeKeys := node.keys.set (idx - 1)
                  (lsib.keys.getD (lsib.n_keys - 1) 0)
                let nodeValues := node.values.set (idx - 1)
                  (lsib.values.getD (lsib.n_keys - 1) 0)
                let lsibKeys := lsib.keys.set (lsib.n_keys - 1) (-1)
                let lsibValues := lsib.values.set (lsib.n_keys - 1) (-1)
                let lsibChildren :=
                  if lsib.is_leaf then lsib.children
                  else lsib.children.set lsib.n_keys (-1)
                let child' := { child with
                  keys := childKeys, values := childValues,
                  children := childChildren, n_keys := child.n_keys + 1 }
                let lsib' := { lsib with
                  keys := lsibKeys, values := lsibValues,
                  children := lsibChildren, n_keys := lsib.n_keys - 1 }
                let node' := { node with keys := nodeKeys, values := nodeValues }
                let s3 := disk_write (disk_write (disk_write s child') lsib') node'
                some (BTREE_SUCCESS, s3)
              else none
          else none
        match afterLeft with
        | some res => res
        | none =>
          let afterRight : Option (Int × Store) :=
            if idx < node.n_keys then
              match disk_read s order (node.children.getD (idx + 1) (-1)) with
              | none => some (BTREE_ERROR_IOFAIL, s)
              | some rsib =>
                if t ≤ rsib.n_keys then
                  let childKeys := child.keys.set child.n_keys (node.keys.getD idx 0)
                  let childValues := child.values.set child.n_keys
                    (node.values.getD idx 0)
                  let childChildren :=
                    if child.is_leaf then child.children
                    else child.children.set (child.n_keys + 1)
                      (rsib.children.getD 0 (-1))
                  let nodeKeys := node.keys.set idx (rsib.keys.getD 0 0)
                  let nodeValues := node.values.set idx (rsib.values.getD 0 0)
                  let rsibKeys := (copyInto rsib.keys 0
                    ((rsib.keys.drop 1).take (rsib.n_keys - 1))).set
                    (rsib.n_keys - 1) (-1)
                  let rsibValues := (copyInto rsib.values 0
                    ((rsib.values.drop 1).take (rsib.n_keys - 1))).set
                    (rsib.n_keys - 1) (-1)
                  let rsibChildren :=
                    if rsib.is_leaf then rsib.children
                    else (copyInto rsib.children 0
                      ((rsib.children.drop 1).take rsib.n_keys)).set rsib.n_keys (-1)
                  let child' := { child with
                    keys := childKeys, values := childValues,
                    children := childChildren, n_keys := child.n_keys + 1 }
                  let rsib' := { rsib with
                    keys := rsibKeys, values := rsibValues,
                    children := rsibChildren, n_keys := rsib.n_keys - 1 }
                  let node' := { node with keys := nodeKeys, values := nodeValues }
                  let s3 := disk_write (disk_write (disk_write s child') rsib') node'
                  some (BTREE_SUCCESS, s3)
                else none
            else none
          match afterRight with
          | some res => res
          | none =>
            if idx < node.n_keys then node_merge s node idx order
            else node_merge s node (idx - 1) order

/-- node_remove_from_internal: the key to delete sits at keys[idx] of an
    internal node.  Case 2a replaces it by its in-order predecessor when the
    left child has at least ceil(order / 2) keys, case 2b symmetrically by
    the successor, case 2c merges the two children and recurses into the
    merged child.  Both replacement cases write the replacement key into
    keys[idx] and into values[idx].  The source routine is mutually
    recursive with node_remove; the model receives that continuation as
    nrec (node_remove passes itself at one fuel less). -/
def node_remove_from_internal (nrec : Store → Option DNode → Int → Nat → Int × Store)
    (fuel : Nat) (s : Store) (node : DNode) (idx : Nat)
    (order : Nat) : Int × Store :=
  if idx ≥ node.n_keys then (BTREE_ERROR_INVALID_PARAM, s)
  else
    let key := node.keys.getD idx 0
    let t := (order + 1) / 2
    match disk_read s order (node.children.getD idx (-1)) with
    | none => (BTREE_ERROR_IOFAIL, s)
    | some leftChild =>
      if t ≤ leftChild.n_keys then
        match node_predecessor fuel s node idx order with
        | Except.error e => (e, s)
        | Except.ok p =>
          let node' := { node with
            keys := node.keys.set idx p, values := node.values.set idx p }
          let s1 := disk_write s node'
          match disk_read s1 order (node.children.getD idx (-1)) with
          | none => (BTREE_ERROR_IOFAIL, s1)
          | some child => nrec s1 (some child) p order
      else
        match disk_read s order (node.children.getD (idx + 1) (-1)) with
        | none => (BTREE_ERROR_IOFAIL, s)
        | some rightChild =>
          if t ≤ rightChild.n_keys then
            match node_successor fuel s node idx order with
            | Except.error e => (e, s)
            | Except.ok sc =>
              let node' := { node with
                keys := node.keys.set idx sc, values := node.values.set idx sc }
              let s1 := disk_write s node'
              match disk_read s1 order (node.children.getD (idx + 1) (-1)) with
              | none => (BTREE_ERROR_IOFAIL, s1)
              | some child => nrec s1 (some child) sc order
          else
            match node_merge s node idx order with
            | (r2, s1) =>
              if r2 ≠ BTREE_SUCCESS then (r2, s1)
              else
                match disk_read s1 order (node.children.getD idx (-1)) with
                | none => (BTREE_ERROR_IOFAIL, s1)
                | some child => nrec s1 (some child) key order

/-- node_remove of the persistent variant.  A null node answers not-found;
    a hit in a leaf is case 1, in an internal node case 2; otherwise the
    child on the search path is topped up by node_ensure_min_keys, the node
    re-read from the store, the descent index pulled back when the last
    position merged away, and the removal recurses into that child. -/
def node_remove (fuel : Nat) (s : Store) (node? : Option DNode) (key : Int)
    (order : Nat) : Int × Store :=
  match fuel with
  | 0 => (BTREE_ERROR_IOFAIL, s)
  | fuel + 1 =>
    match node? with
    | none => (BTREE_ERROR_NOT_FOUND, s)
    | some node =>
      let idx := scan_idx key (node.keys.take node.n_keys)
      if idx < node.n_keys ∧ node.keys.getD idx 0 = key then
        if node.is_leaf then node_remove_from_leaf s node idx order
        else node_remove_from_internal
          (fun s2 n2 k2 o2 => node_remove fuel s2 n2 k2 o2) fuel s node idx order
      else if node.is_leaf then (BTREE_ERROR_NOT_FOUND, s)
      else
        let isLast := idx = node.n_keys
        match node_ensure_min_keys s node idx order with
        | (r, s1) =>
          if r ≠ BTREE_SUCCESS then (r, s1)
          else
            match disk_read s1 order (node.bin_pos : Int) with
            | none => (BTREE_ERROR_IOFAIL, s1)
            | some u =>
              let idx2 := if isLast ∧ u.n_keys < idx then idx - 1 else idx
              match disk_read s1 order (u.children.getD idx2 (-1)) with
              | none => (BTREE_ERROR_IOFAIL, s1)
              | some child => node_remove fuel s1 (some child) key order

/-- The tree facade of the persistent variant: order, in-memory root object,
    node counter, and the open file. -/
structure DTree where
  order : Nat
  root : Option DNode
  n_nodes : Nat
  store : Store

/-- btree_search of the persistent variant. -/
def btree_search (fuel : Nat) (tree : DTree) (key : Int) :
    Option (DNode × Nat) × Store :=
  node_search tree.order fuel tree.store tree.root key

/-- btree_insert of the persistent variant: on success the node counter is
    incremented and the header slot count bumped, whatever the insert did. -/
def btree_insert (fuel : Nat) (tree : DTree) (key value : Int) : Int × DTree :=
  match node_insert fuel tree.store tree.root key value tree.order with
  | (r, s', root') =>
    if r = BTREE_SUCCESS then
      (r, { tree with
        root := root', n_nodes := tree.n_nodes + 1, store := update_node_count s' })
    else (r, { tree with root := root', store := s' })

/-- btree_remove of the persistent variant: on success the node counter is
    decremented, whatever the removal freed. -/
def btree_remove (fuel : Nat) (tree : DTree) (key : Int) : Int × DTree :=
  match node_remove fuel tree.store tree.root key tree.order with
  | (r, s') =>
    if r = BTREE_SUCCESS then
      (r, { tree with n_nodes := tree.n_nodes - 1, store := s' })
    else (r, { tree with store := s' })

end Disk

namespace Mem

/-- A node of the in-memory variant (struct node of btree.c): key count,
    key array of capacity order - 1, child pointer array of capacity order,
    leaf flag.  The key array is malloc-ed without initialisation; the model
    fills indeterminate slots with 0.  Child pointers become an inductive
    occurrence; NULL is none. -/
inductive MNode : Type where
  | mk (n_keys : Nat) (keys : List Int) (children : List (Option MNode))
      (is_leaf : Bool) : MNode

def MNode.n_keys : MNode → Nat
  | .mk n _ _ _ => n

def MNode.keys : MNode → List Int
  | .mk _ ks _ _ => ks

def MNode.children : MNode → List (Option MNode)
  | .mk _ _ cs _ => cs

def MNode.is_leaf : MNode → Bool
  | .mk _ _ _ l => l

/-- node_keyat: the key at position i, or -1 when out of range. -/
def node_keyat (node : MNode) (i : Nat) : Int :=
  if i < node.n_keys then node.keys.getD i 0 else -1

/-- node_search of btree.c: scan for the first index not below the key,
    answer the (node, index) pair on an exact hit, otherwise follow
    children[i] when that pointer is set.  The function only reads. -/
def node_search : Nat → Option MNode → Int → Option (MNode × Nat)
  | _, none, _ => none
  | 0, some _, _ => none
  | fuel + 1, some node, key =>
    let i := scan_idx key (node.keys.take node.n_keys)
    if i < node.n_keys ∧ node.keys.getD i 0 = key then some (node, i)
    else
      match node.children.getD i none with
      | none => none
      | some c => node_search fuel (some c) key

/-- node_search again, also reporting the list of child positions followed
    to reach the hit.  The path is model bookkeeping: the C routine hands
    back a pointer into the tree, and the path is what lets the model
    rebuild the tree after mutations through that pointer. -/
def node_searchP : Nat → Option MNode → Int → Option (MNode × Nat × List Nat)
  | _, none, _ => none
  | 0, some _, _ => none
  | fuel + 1, some node, key =>
    let i := scan_idx key (node.keys.take node.n_keys)
    if i < node.n_keys ∧ node.keys.getD i 0 = key then some (node, i, [])
    else
      match node.children.getD i none with
      | none => none
      | some c =>
        (node_searchP fuel (some c) key).map (fun r => (r.1, r.2.1, i :: r.2.2))

/-- node_keyidx: position of an exact match among the first n_keys keys,
    or -1. -/
def node_keyidx (node : MNode) (key : Int) : Int :=
  match key_index key (node.keys.take node.n_keys) with
  | some i => (i : Int)
  | none => -1

/-- node_rmleaf of btree.c.  Its first line returns immediately when the
    node IS a leaf; when it does proceed it shifts keys left over the match
    without ever decrementing n_keys (the shift loop also reads one entry
    past n_keys; where that read leaves the capacity the model drops the
    copy that C would fill with out-of-bounds bytes). -/
def node_rmleaf (node : MNode) (key : Int) (order : Nat) : MNode :=
  if node.is_leaf then node
  else
    match key_index key (node.keys.take node.n_keys) with
    | none => node
    | some idx =>
      MNode.mk node.n_keys
        (copyInto node.keys idx ((node.keys.drop (idx + 1)).take (node.n_keys - idx)))
        node.children node.is_leaf

/-- merge of btree.c: appends m's keys (and, for non-leaf m, children) to n;
    n's key count grows by m's count only (the separator was pushed down by
    the caller beforehand); m is freed. -/
def merge (n m : MNode) : MNode :=
  let ks := copyInto n.keys n.n_keys (m.keys.take m.n_keys)
  let cs :=
    if m.is_leaf then n.children
    else copyInto n.children (n.n_keys + 1) (m.children.take (m.n_keys + 1))
  MNode.mk (n.n_keys + m.n_keys) ks cs n.is_leaf

/-- node_splitch of btree.c: splits the full child at position idx of the
    parent around index mid = order / 2 - 1, hangs the new right node at
    idx + 1, promotes child.keys[mid].  Returns the mutated parent (none
    when the child pointer is NULL or node_create fails, which the C code
    would dereference). -/
def node_splitch (parent : MNode) (idx : Nat) (order : Nat) : Option MNode :=
  match parent.children.getD idx none with
  | none => none
  | some child =>
    if order < 3 then none
    else
      let mid := order / 2 - 1
      let newKeys := copyInto (List.replicate (order - 1) 0) 0
        ((child.keys.drop (order / 2)).take mid)
      let newChildren :=
        if child.is_leaf then List.replicate order (none : Option MNode)
        else copyInto (List.replicate order (none : Option MNode)) 0
          ((child.children.drop (order / 2)).take (order / 2))
      let newNode := MNode.mk mid newKeys newChildren child.is_leaf
      let child' := MNode.mk mid child.keys child.children child.is_leaf
      let pChildren := ((copyInto parent.children (idx + 2)
        ((parent.children.drop (idx + 1)).take (parent.n_keys - idx))).set
        (idx + 1) (some newNode)).set idx (some child')
      let pKeys := (copyInto parent.keys (idx + 1)
        ((parent.keys.drop idx).take (parent.n_keys - idx))).set idx
        (child.keys.getD mid 0)
      some (MNode.mk (parent.n_keys + 1) pKeys pChildren parent.is_leaf)

/-- node_insertnf of btree.c: sorted insert into a leaf, otherwise descend
    into the chosen child, splitting it first when full. -/
def node_insertnf (order : Nat) : Nat → MNode → Int → Option MNode
  | 0, _, _ => none
  | fuel + 1, node, key =>
    if node.is_leaf then
      let p := insert_pos node.keys node.n_keys key
      some (MNode.mk (node.n_keys + 1)
        ((copyInto node.keys (p + 1) ((node.keys.drop p).take (node.n_keys - p))).set p key)
        node.children node.is_leaf)
    else
      let p := insert_pos node.keys node.n_keys key
      match node.children.getD p none with
      | none => none
      | some c =>
        if c.n_keys = order - 1 then
          match node_splitch node p order with
          | none => none
          | some node' =>
            let p' := if node'.keys.getD p 0 < key then p + 1 else p
            match node'.children.getD p' none with
            | none => none
            | some c' =>
              (node_insertnf order fuel c' key).map (fun c'' =>
                MNode.mk node'.n_keys node'.keys
                  (node'.children.set p' (some c'')) node'.is_leaf)
        else
          (node_insertnf order fuel c key).map (fun c'' =>
            MNode.mk node.n_keys node.keys
              (node.children.set p (some c'')) node.is_leaf)

/-- node_insert of btree.c: duplicate keys answer 0 without any change; an
    absent root makes a fresh one-key leaf root; a full root is split under
    a fresh internal root; the return value reaches the facade's n_nodes. -/
def node_insert (fuel : Nat) (root? : Option MNode) (key : Int) (order : Nat) :
    Option (Int × Option MNode) :=
  match node_search fuel root? key with
  | some _ => some (0, root?)
  | none =>
    match root? with
    | none =>
      if order < 3 then none
      else
        some (1, some (MNode.mk 1 ((List.replicate (order - 1) 0).set 0 key)
          (List.replicate order none) true))
    | some root =>
      if root.n_keys = order - 1 then
        if order < 3 then none
        else
          let newRoot := MNode.mk 0 (List.replicate (order - 1) 0)
            ((List.replicate order (none : Option MNode)).set 0 (some root)) false
          match node_splitch newRoot 0 order with
          | none => none
          | some nr' =>
            (node_insertnf order fuel nr' key).map (fun r' => (1, some r'))
      else
        (node_insertnf order fuel root key).map (fun r' => (0, some r'))

/-- Model bookkeeping: the subtree at the end of a child-position path. -/
def getAtPath : MNode → List Nat → Option MNode
  | n, [] => some n
  | n, i :: p =>
    match n.children.getD i none with
    | none => none
    | some c => getAtPath c p

/-- Model bookkeeping: rebuilds the tree after a mutation of the node at
    the end of a child-position path (what a C write through a pointer into
    the tree does in place). -/
def updateAtPath : MNode → List Nat → (MNode → MNode) → MNode
  | n, [], f => f n
  | n, i :: p, f =>
    match n.children.getD i none with
    | none => n
    | some c =>
      MNode.mk n.n_keys n.keys (n.children.set i (some (updateAtPath c p f)))
        n.is_leaf

/-- The descent loop of pred: repeatedly follow the last child.  Returns
    the leaf and the extended path; none models the NULL dereference of a
    missing child (or a walk that would not terminate). -/
def descend_right_path : Nat → MNode → List Nat → Option (List Nat × MNode)
  | 0, _, _ => none
  | fuel + 1, cur, path =>
    if cur.is_leaf then some (path, cur)
    else
      match cur.children.getD cur.n_keys none with
      | none => none
      | some nxt => descend_right_path fuel nxt (path ++ [cur.n_keys])

/-- The descent loop of succ: repeatedly follow the first child. -/
def descend_left_path : Nat → MNode → List Nat → Option (List Nat × MNode)
  | 0, _, _ => none
  | fuel + 1, cur, path =>
    if cur.is_leaf then some (path, cur)
    else
      match cur.children.getD 0 none with
      | none => none
      | some nxt => descend_left_path fuel nxt (path ++ [0])

/-- pred of btree.c, with the path to the node it returns: locates key in
    THIS node's keys (answering NULL when absent), steps into children[idx]
    unless the node is a leaf, then walks to the rightmost leaf and reports
    its last key. -/
def predP (fuel : Nat) (root : MNode) (key : Int) :
    Option (List Nat × MNode × Int) :=
  match key_index key (root.keys.take root.n_keys) with
  | none => none
  | some idx =>
    let start? : Option (List Nat × MNode) :=
      if root.is_leaf then some ([], root)
      else
        match root.children.getD idx none with
        | none => none
        | some c => some ([idx], c)
    match start? with
    | none => none
    | some (p0, c0) =>
      (descend_right_path fuel c0 p0).map (fun r =>
        (r.1, r.2, r.2.keys.getD (r.2.n_keys - 1) 0))

/-- succ of btree.c, with the path to the node it returns. -/
def succP (fuel : Nat) (root : MNode) (key : Int) :
    Option (List Nat × MNode × Int) :=
  match key_index key (root.keys.take root.n_keys) with
  | none => none
  | some idx =>
    let start? : Option (List Nat × MNode) :=
      if root.is_leaf then some ([], root)
      else
        match root.children.getD (idx + 1) none with
        | none => none
        | some c => some ([idx + 1], c)
    match start? with
    | none => none
    | some (p0, c0) =>
      (descend_left_path fuel c0 p0).map (fun r =>
        (r.1, r.2, r.2.keys.getD 0 0))

/-- node_remove of btree.c.  A miss answers 0 and changes nothing.  On a
    hit: a leaf with enough keys goes through the (inert) node_rmleaf; a hit
    in an internal node picks case 2a / 2b / 2c; a hit in a leaf falls into
    the case-3 fix-up, which only redistributes or concatenates direct
    children of the TOP node and never deletes the key.  The result none
    models a NULL dereference; mutation through pointers into the tree is
    rebuilt along the search path. -/
def node_remove (order : Nat) : Nat → Option MNode → Int → Option (Int × Option MNode)
  | 0, _, _ => none
  | fuel + 1, root?, key =>
    match root? with
    | none => some (0, none)
    | some root =>
      match node_searchP fuel (some root) key with
      | none => some (0, some root)
      | some (n, idx, path) =>
        let t := (order + 1) / 2
        let n1 := if n.is_leaf ∧ t ≤ n.n_keys then node_rmleaf n key order else n
        let root1 := updateAtPath root path (fun _ => n1)
        if ¬ n1.is_leaf then
          match n1.children.getD idx none with
          | none => none
          | some lc =>
            if idx ≤ n1.n_keys ∧ t ≤ lc.n_keys then
              match predP fuel root1 key with
              | none => none
              | some (mpath, _, p) =>
                let root2 := updateAtPath root1 mpath (fun mm => node_rmleaf mm p order)
                let root3 := updateAtPath root2 path (fun cur =>
                  MNode.mk cur.n_keys (cur.keys.set idx p) cur.children cur.is_leaf)
                some (1, some root3)
            else
              match n1.children.getD (idx + 1) none with
              | none => none
              | some rc =>
                if idx < n1.n_keys ∧ t ≤ rc.n_keys then
                  match succP fuel root1 key with
                  | none => none
                  | some (mpath, _, sc) =>
                    let root2 := updateAtPath root1 mpath (fun mm => node_rmleaf mm sc order)
                    let root3 := updateAtPath root2 path (fun cur =>
                      MNode.mk cur.n_keys (cur.keys.set idx sc) cur.children cur.is_leaf)
                    some (1, some root3)
                else
                  let merged := merge lc rc
                  let root2 := updateAtPath root1 (path ++ [idx]) (fun _ => merged)
                  match getAtPath root2 path with
                  | none => none
                  | some sub =>
                    match node_remove order fuel (some sub) key with
                    | none => none
                    | some (_, sub') =>
                      match sub' with
                      | none => some (1, some root2)
                      | some sub2 =>
                        some (1, some (updateAtPath root2 path (fun _ => sub2)))
        else
          let idx3 := scan_idx key (root1.keys.take root1.n_keys)
          match root1.children.getD idx3 none with
          | none => none
          | some nch =>
            if nch.n_keys ≤ t - 1 then
              let case3right : Option (Int × Option MNode) :=
                match root1.children.getD (idx3 + 1) none with
                | none => none
                | some rs =>
                  if t ≤ rs.n_keys then
                    match node_insertnf order fuel nch (root1.keys.getD idx3 0) with
                    | none => none
                    | some nch1 =>
                      let ks := root1.keys.set (idx3 + 1) (rs.keys.getD 0 0)
                      let rs1 := node_rmleaf rs (rs.keys.getD 0 0) order
                      some (1, some (MNode.mk root1.n_keys ks
                        ((root1.children.set idx3 (some nch1)).set (idx3 + 1) (some rs1))
                        root1.is_leaf))
                  else
                    match node_insertnf order fuel nch (root1.keys.getD idx3 0) with
                    | none => none
                    | some nch1 =>
                      let merged := merge nch1 rs
                      let ks :=
                        if idx3 + 1 < root1.n_keys then
                          root1.keys.set idx3 (root1.keys.getD (idx3 + 1) 0)
                        else root1.keys
                      some (1, some (MNode.mk root1.n_keys ks
                        (root1.children.set idx3 (some merged)) root1.is_leaf))
              if 0 < idx3 then
                match root1.children.getD (idx3 - 1) none with
                | none => none
                | some ls =>
                  if t ≤ ls.n_keys then
                    match node_insertnf order fuel nch (root1.keys.getD (idx3 - 1) 0) with
                    | none => none
                    | some nch1 =>
                      let ks := root1.keys.set (idx3 - 1) (ls.keys.getD (ls.n_keys - 1) 0)
                      let ls1 := node_rmleaf ls (ls.keys.getD (ls.n_keys - 1) 0) order
                      some (1, some (MNode.mk root1.n_keys ks
                        ((root1.children.set idx3 (some nch1)).set (idx3 - 1) (some ls1))
                        root1.is_leaf))
                  else case3right
              else case3right
            else some (1, some root1)

/-- The tree facade of the in-memory variant. -/
structure MTree where
  order : Nat
  root : Option MNode
  n_nodes : Nat

/-- btree_search of btree.c. -/
def btree_search (fuel : Nat) (tree : MTree) (key : Int) : Option (MNode × Nat) :=
  node_search fuel tree.root key

/-- btree_insert of btree.c: adds node_insert's return value to n_nodes. -/
def btree_insert (fuel : Nat) (tree : MTree) (key : Int) : Option MTree :=
  (node_insert fuel tree.root key tree.order).map (fun r =>
    { tree with root := r.2, n_nodes := tree.n_nodes + r.1.toNat })

/-- btree_remove of btree.c: subtracts node_remove's return value from
    n_nodes. -/
def btree_remove (fuel : Nat) (tree : MTree) (key : Int) : Option MTree :=
  (node_remove tree.order fuel tree.root key).map (fun r =>
    { tree with root := r.2, n_nodes := tree.n_nodes - r.1.toNat })

/-- Observer (not part of the source): number of nodes reachable from a
    root, each internal node contributing its first n_keys + 1 child slots.
    Used to state what a counter of live nodes would read. -/
def liveNodes : Nat → Option MNode → Nat
  | 0, _ => 0
  | _, none => 0
  | fuel + 1, some n =>
    if n.is_leaf then 1
    else 1 + ((n.children.take (n.n_keys + 1)).map (liveNodes fuel)).sum

end Mem

/-- Stated from the spec, for comparison with the source: the split index
    m of claim C1, floor(t / 2) - 1 for tree order t. -/
def specMid (order : Nat) : Nat := order / 2 - 1

/-- Stated from the spec, for comparison with the source: the slot offset
    of claim C5, header_size + id * slot_size with an 8-byte header. -/
def specOffset (id : Nat) (order : Nat) : Nat :=
  Disk.sizeof_size_t + id * (Disk.sizeof_size_t + Disk.sizeof_bool +
    Disk.sizeof_size_t + Disk.sizeof_int * (order - 1) +
    Disk.sizeof_int * (order - 1) + Disk.sizeof_int * order)

/- ------------------------------------------------------------------ -/
/- Lemmas about the list helpers. -/

theorem copyInto_length (src : List α) :
    ∀ (dst : List α) (start : Nat), (copyInto dst start src).length = dst.length := by
  induction src with
  | nil => intro dst start; rfl
  | cons a rest ih => intro dst start; simp [copyInto, ih]

theorem getD_set_eq (a d : α) :
    ∀ (l : List α) (i : Nat), i < l.length → (l.set i a).getD i d = a := by
  intro l
  induction l with
  | nil => intro i h; simp at h
  | cons b rest ih =>
    intro i h
    cases i with
    | zero => rfl
    | succ i =>
      simp only [List.set, List.getD_cons_succ]
      exact ih i (by simpa using h)

theorem getD_set_ne (a d : α) :
    ∀ (l : List α) (i j : Nat), i ≠ j → (l.set i a).getD j d = l.getD j d := by
  intro l
  induction l with
  | nil => intro i j _; cases i <;> rfl
  | cons b rest ih =>
    intro i j h
    cases i with
    | zero =>
      cases j with
      | zero => exact absurd rfl h
      | succ j => rfl
    | succ i =>
      cases j with
      | zero => rfl
      | succ j =>
        simp only [List.set, List.getD_cons_succ]
        exact ih i j (by omega)

theorem getD_copyInto_lt (d : α) (src : List α) :
    ∀ (dst : List α) (start i : Nat), i < start →
      (copyInto dst start src).getD i d = dst.getD i d := by
  induction src with
  | nil => intro dst start i _; rfl
  | cons a rest ih =>
    intro dst start i h
    simp only [copyInto]
    rw [ih (dst.set start a) (start + 1) i (by omega), getD_set_ne]
    omega

theorem getD_copyInto_ge (d : α) (src : List α) :
    ∀ (dst : List α) (start i : Nat), start + src.length ≤ i →
      (copyInto dst start src).getD i d = dst.getD i d := by
  induction src with
  | nil => intro dst start i _; rfl
  | cons a rest ih =>
    intro dst start i h
    simp only [copyInto]
    rw [ih (dst.set start a) (start + 1) i (by simp at h ⊢; omega), getD_set_ne]
    simp at h; omega

theorem getD_copyInto_mid (d : α) (src : List α) :
    ∀ (dst : List α) (start j : Nat), j < src.length → start + j < dst.length →
      (copyInto dst start src).getD (start + j) d = src.getD j d := by
  induction src with
  | nil => intro dst start j h _; simp at h
  | cons a rest ih =>
    intro dst start j hj hlen
    simp only [copyInto]
    cases j with
    | zero =>
      simp only [Nat.add_zero]
      rw [getD_copyInto_lt d rest (dst.set start a) (start + 1) start (by omega)]
      have hs : start < dst.length := by omega
      simpa using getD_set_eq a d dst start hs
    | succ j =>
      have h2 := ih (dst.set start a) (start + 1) j (by simpa using hj)
        (by simp only [List.length_set]; omega)
      have hidx : start + (j + 1) = (start + 1) + j := by omega
      rw [hidx, h2]
      rfl

theorem getD_drop (d : α) :
    ∀ (l : List α) (k i : Nat), (l.drop k).getD i d = l.getD (k + i) d := by
  intro l
  induction l with
  | nil => intro k i; simp
  | cons b rest ih =>
    intro k i
    cases k with
    | zero => simp
    | succ k =>
      simpa [Nat.succ_add] using ih k i

theorem getD_take_lt (d : α) :
    ∀ (l : List α) (n i : Nat), i < n → (l.take n).getD i d = l.getD i d := by
  intro l
  induction l with
  | nil => intro n i _; simp
  | cons b rest ih =>
    intro n i h
    cases n with
    | zero => omega
    | succ n =>
      cases i with
      | zero => rfl
      | succ i =>
        simpa using ih n i (by omega)

theorem getD_replicate (a d : α) :
    ∀ (n i : Nat), i < n → (List.replicate n a).getD i d = a := by
  intro n
  induction n with
  | zero => intro i h; omega
  | succ n ih =>
    intro i h
    cases i with
    | zero => rfl
    | succ i => simpa [List.replicate] using ih i (by omega)

theorem getD_eq_d_of_len_le (d : α) :
    ∀ (l : List α) (i : Nat), l.length ≤ i → l.getD i d = d := by
  intro l
  induction l with
  | nil => intro i _; rfl
  | cons b rest ih =>
    intro i h
    cases i with
    | zero => simp at h
    | succ i => simpa using ih i (by simpa using h)

/- Lemmas about the store. -/

namespace Disk

theorem nodes_disk_write_self (s : Store) (n : DNode) :
    (disk_write s n).nodes n.bin_pos = some n := by
  simp [disk_write]

theorem nodes_disk_write_ne (s : Store) (n : DNode) (p : Nat) (h : p ≠ n.bin_pos) :
    (disk_write s n).nodes p = s.nodes p := by
  simp [disk_write, h]

theorem disk_read_write_self (s : Store) (n : DNode) (order : Nat) (h3 : 3 ≤ order) :
    disk_read (disk_write s n) order (n.bin_pos : Int) = some n := by
  have h0 : ¬ ((n.bin_pos : Int) < 0 ∨ order < 3) := by
    push_neg
    exact ⟨Int.natCast_nonneg _, h3⟩
  simp [disk_read, h0, disk_write]

theorem disk_read_write_ne (s : Store) (n : DNode) (order : Nat) (p : Int)
    (h : p.toNat ≠ n.bin_pos) :
    disk_read (disk_write s n) order p = disk_read s order p := by
  unfold disk_read
  split
  · rfl
  · rw [nodes_disk_write_ne s n p.toNat h]

theorem disk_read_bin_pos (s : Store) (order : Nat) (p : Int) (c : DNode)
    (h : disk_read s order p = some c) : c.bin_pos = p.toNat := by
  unfold disk_read at h
  split at h
  · exact absurd h (by simp)
  · rcases Option.map_eq_some'.mp h with ⟨n, _, hn⟩
    rw [← hn]

theorem disk_read_write_at (s s2 : Store) (n : DNode) (order : Nat) (p : Int)
    (l : DNode) (h : disk_read s order p = some l) (hb : n.bin_pos = p.toNat) :
    disk_read (disk_write s2 n) order p = some n := by
  unfold disk_read at h ⊢
  split at h
  · exact absurd h (by simp)
  · rename_i hcond
    rw [if_neg hcond]
    have hw : (disk_write s2 n).nodes p.toNat = some n := by
      rw [← hb]
      exact nodes_disk_write_self s2 n
    rw [hw]
    have hn : { n with bin_pos := p.toNat } = n := by
      rw [← hb]
    rw [Option.map_some', hn]

theorem disk_read_pos_ok (s : Store) (order : Nat) (p : Int) (c : DNode)
    (h : disk_read s order p = some c) : ¬ (p < 0 ∨ order < 3) := by
  intro hbad
  unfold disk_read at h
  rw [if_pos hbad] at h
  exact absurd h (by simp)

end Disk

/- Lemmas about the scan loop. -/

theorem scan_idx_le_length (key : Int) :
    ∀ l : List Int, scan_idx key l ≤ l.length := by
  intro l
  induction l with
  | nil => simp [scan_idx]
  | cons k rest ih =>
    simp only [scan_idx]
    split
    · simpa using ih
    · simp

theorem scan_idx_lt_key (key : Int) :
    ∀ (l : List Int) (j : Nat), j < scan_idx key l → l.getD j 0 < key := by
  intro l
  induction l with
  | nil => intro j h; simp [scan_idx] at h
  | cons k rest ih =>
    intro j h
    simp only [scan_idx] at h
    by_cases hk : key > k
    · rw [if_pos hk] at h
      cases j with
      | zero => simpa using hk
      | succ j => simpa using ih j (by omega)
    · rw [if_neg hk] at h
      omega

theorem key_le_scan_idx (key : Int) :
    ∀ l : List Int, scan_idx key l < l.length → key ≤ l.getD (scan_idx key l) 0 := by
  intro l
  induction l with
  | nil => intro h; simp at h
  | cons k rest ih =>
    intro h
    simp only [scan_idx] at h ⊢
    by_cases hk : key > k
    · rw [if_pos hk] at h ⊢
      simpa using ih (by simpa using h)
    · rw [if_neg hk]
      simpa using le_of_not_lt hk

/-- Projections of a literal in-memory node. -/
theorem mem_children_mk (n : Nat) (ks : List Int) (cs : List (Option Mem.MNode))
    (l : Bool) : (Mem.MNode.mk n ks cs l).children = cs := rfl

theorem mem_keys_mk (n : Nat) (ks : List Int) (cs : List (Option Mem.MNode))
    (l : Bool) : (Mem.MNode.mk n ks cs l).keys = ks := rfl

theorem mem_n_keys_mk (n : Nat) (ks : List Int) (cs : List (Option Mem.MNode))
    (l : Bool) : (Mem.MNode.mk n ks cs l).n_keys = n := rfl

/- Search is read-only and a hit names the key it was given. -/

theorem disk_node_search_store_eq (order : Nat) :
    ∀ (fuel : Nat) (s : Disk.Store) (node? : Option Disk.DNode) (key : Int),
      (Disk.node_search order fuel s node? key).2 = s := by
  intro fuel
  induction fuel with
  | zero =>
    intro s node? key
    cases node? <;> rfl
  | succ n ih =>
    intro s node? key
    cases node? with
    | none => rfl
    | some node =>
      simp only [Disk.node_search]
      by_cases h1 : scan_idx key (node.keys.take node.n_keys) < node.n_keys ∧
          node.keys.getD (scan_idx key (node.keys.take node.n_keys)) 0 = key
      · rw [if_pos h1]
      · rw [if_neg h1]
        by_cases h2 : node.is_leaf = true
        · rw [if_pos h2]
        · rw [if_neg h2]
          by_cases h3 : node.children.getD
              (scan_idx key (node.keys.take node.n_keys)) (-1) = -1
          · rw [if_pos h3]
          · rw [if_neg h3]
            cases hd : Disk.disk_read s order
                (node.children.getD (scan_idx key (node.keys.take node.n_keys)) (-1)) with
            | none => rfl
            | some child => exact ih s (some child) key

theorem disk_node_search_found (order : Nat) :
    ∀ (fuel : Nat) (s : Disk.Store) (node? : Option Disk.DNode) (key : Int)
      (n : Disk.DNode) (i : Nat),
      (Disk.node_search order fuel s node? key).1 = some (n, i) →
      i < n.n_keys ∧ n.keys.getD i 0 = key := by
  intro fuel
  induction fuel with
  | zero =>
    intro s node? key n i h
    cases node? <;> simp [Disk.node_search] at h
  | succ fl ih =>
    intro s node? key n i h
    cases node? with
    | none => simp [Disk.node_search] at h
    | some node =>
      simp only [Disk.node_search] at h
      by_cases h1 : scan_idx key (node.keys.take node.n_keys) < node.n_keys ∧
          node.keys.getD (scan_idx key (node.keys.take node.n_keys)) 0 = key
      · rw [if_pos h1] at h
        have hni : node = n ∧ scan_idx key (node.keys.take node.n_keys) = i := by
          simpa using h
        rcases hni with ⟨rfl, rfl⟩
        exact ⟨h1.1, h1.2⟩
      · rw [if_neg h1] at h
        by_cases h2 : node.is_leaf = true
        · rw [if_pos h2] at h
          simp at h
        · rw [if_neg h2] at h
          by_cases h3 : node.children.getD
              (scan_idx key (node.keys.take node.n_keys)) (-1) = -1
          · rw [if_pos h3] at h
            simp at h
          · rw [if_neg h3] at h
            cases hd : Disk.disk_read s order
                (node.children.getD (scan_idx key (node.keys.take node.n_keys)) (-1)) with
            | none => rw [hd] at h; simp at h
            | some child =>
              rw [hd] at h
              exact ih s (some child) key n i h

theorem mem_node_search_found :
    ∀ (fuel : Nat) (node? : Option Mem.MNode) (key : Int) (n : Mem.MNode) (i : Nat),
      Mem.node_search fuel node? key = some (n, i) →
      i < n.n_keys ∧ n.keys.getD i 0 = key := by
  intro fuel
  induction fuel with
  | zero =>
    intro node? key n i h
    cases node? <;> simp [Mem.node_search] at h
  | succ fl ih =>
    intro node? key n i h
    cases node? with
    | none => simp [Mem.node_search] at h
    | some node =>
      simp only [Mem.node_search] at h
      by_cases h1 : scan_idx key (node.keys.take node.n_keys) < node.n_keys ∧
          node.keys.getD (scan_idx key (node.keys.take node.n_keys)) 0 = key
      · rw [if_pos h1] at h
        have hni : node = n ∧ scan_idx key (node.keys.take node.n_keys) = i := by
          simpa using h
        rcases hni with ⟨rfl, rfl⟩
        exact ⟨h1.1, h1.2⟩
      · rw [if_neg h1] at h
        cases hc : node.children.getD (scan_idx key (node.keys.take node.n_keys)) none with
        | none => rw [hc] at h; simp at h
        | some c =>
          rw [hc] at h
          exact ih (some c) key n i h

/- The duplicate-key branch of the two insert routines, shared below. -/

theorem disk_node_insert_duplicate (fuel : Nat) (s : Disk.Store)
    (root found : Disk.DNode) (pos : Nat) (key value : Int) (order : Nat)
    (h : (Disk.node_search order fuel s (some root) key).1 = some (found, pos)) :
    Disk.node_insert fuel s (some root) key value order =
      (BTREE_SUCCESS,
        Disk.disk_write s { found with values := found.values.set pos value },
        if found = root then some { found with values := found.values.set pos value }
        else some root) := by
  have h2 := disk_node_search_store_eq order fuel s (some root) key
  rcases hq : Disk.node_search order fuel s (some root) key with ⟨a, b⟩
  rw [hq] at h h2
  simp only at h h2
  subst h h2
  simp only [Disk.node_insert, hq]

theorem mem_node_insert_duplicate (fuel : Nat) (root? : Option Mem.MNode)
    (key : Int) (order : Nat) (h : (Mem.node_search fuel root? key).isSome) :
    Mem.node_insert fuel root? key order = some (0, root?) := by
  obtain ⟨x, hx⟩ := Option.isSome_iff_exists.mp h
  simp only [Mem.node_insert, hx]

/- ------------------------------------------------------------------ -/
/- Claim theorems. -/

/-- Claim C3: search starts at the root and scans each visited node left to
    right for the smallest index i with key ≤ keys[i] (every earlier key is
    strictly below the key, and the key at the scan index, when it exists,
    is not below it); an exact hit returns that (node, i) pair, so the
    returned index carries the searched key; and the persistent search
    threads the store through unchanged — it never writes. -/
theorem c3_search_spec :
    (∀ (key : Int) (l : List Int),
      (∀ j, j < scan_idx key l → l.getD j 0 < key) ∧
      (scan_idx key l < l.length → key ≤ l.getD (scan_idx key l) 0) ∧
      scan_idx key l ≤ l.length) ∧
    (∀ (order fuel : Nat) (s : Disk.Store) (node? : Option Disk.DNode) (key : Int),
      (Disk.node_search order fuel s node? key).2 = s) ∧
    (∀ (order fuel : Nat) (s : Disk.Store) (node? : Option Disk.DNode) (key : Int)
      (n : Disk.DNode) (i : Nat),
      (Disk.node_search order fuel s node? key).1 = some (n, i) →
      i < n.n_keys ∧ n.keys.getD i 0 = key) ∧
    (∀ (fuel : Nat) (node? : Option Mem.MNode) (key : Int) (n : Mem.MNode) (i : Nat),
      Mem.node_search fuel node? key = some (n, i) →
      i < n.n_keys ∧ n.keys.getD i 0 = key) := by
  refine ⟨?_, ?_, ?_, ?_⟩
  · intro key l
    exact ⟨fun j hj => scan_idx_lt_key key l j hj, key_le_scan_idx key l,
      scan_idx_le_length key l⟩
  · intro order fuel s node? key
    exact disk_node_search_store_eq order fuel s node? key
  · intro order fuel s node? key n i h
    exact disk_node_search_found order fuel s node? key n i h
  · intro fuel node? key n i h
    exact mem_node_search_found fuel node? key n i h

/-- Claim C3, witnessed at a concrete two-key leaf root at slot 1. -/
theorem c3_search_spec_witness :
    ([4, 9] : List Int).getD 0 0 < 9 ∧
    (Disk.node_search 4 5
      ⟨fun p => if p = 1 then some ⟨2, [4, 9, -1], [40, 90, -1], 1, [-1, -1, -1, -1], true⟩
                else none, 2, 2⟩
      (some ⟨2, [4, 9, -1], [40, 90, -1], 1, [-1, -1, -1, -1], true⟩) 9).2 =
      ⟨fun p => if p = 1 then some ⟨2, [4, 9, -1], [40, 90, -1], 1, [-1, -1, -1, -1], true⟩
                else none, 2, 2⟩ ∧
    (1 < (⟨2, [4, 9, -1], [40, 90, -1], 1, [-1, -1, -1, -1], true⟩ : Disk.DNode).n_keys ∧
      (⟨2, [4, 9, -1], [40, 90, -1], 1, [-1, -1, -1, -1], true⟩ : Disk.DNode).keys.getD 1 0 = 9) ∧
    (1 < (Mem.MNode.mk 2 [4, 9] [none, none, none] true).n_keys ∧
      (Mem.MNode.mk 2 [4, 9] [none, none, none] true).keys.getD 1 0 = 9) :=
  ⟨c3_search_spec.1 9 [4, 9] |>.1 0 (by decide),
   c3_search_spec.2.1 4 5
     ⟨fun p => if p = 1 then some ⟨2, [4, 9, -1], [40, 90, -1], 1, [-1, -1, -1, -1], true⟩
               else none, 2, 2⟩
     (some ⟨2, [4, 9, -1], [40, 90, -1], 1, [-1, -1, -1, -1], true⟩) 9,
   c3_search_spec.2.2.1 4 5
     ⟨fun p => if p = 1 then some ⟨2, [4, 9, -1], [40, 90, -1], 1, [-1, -1, -1, -1], true⟩
               else none, 2, 2⟩
     (some ⟨2, [4, 9, -1], [40, 90, -1], 1, [-1, -1, -1, -1], true⟩) 9
     ⟨2, [4, 9, -1], [40, 90, -1], 1, [-1, -1, -1, -1], true⟩ 1 (by decide),
   c3_search_spec.2.2.2 5 (some (Mem.MNode.mk 2 [4, 9] [none, none, none] true)) 9
     (Mem.MNode.mk 2 [4, 9] [none, none, none] true) 1 rfl⟩

/-- Claim C5: the source's calculate_offset omits the header entirely — the
    record of slot id sits at id * slot_size (45 bytes at order 3), so slot
    0 begins at byte 0 and overlaps the 8-byte slot-count header that
    get_next_bin_pos and update_node_count keep at the start of the file;
    the specified layout starts records at header_size + id * slot_size. -/
theorem c5_offset_missing_header :
    (∀ id : Nat, Disk.calculate_offset id 3 = some (id * 45)) ∧
    Disk.calculate_offset 0 3 = some 0 ∧
    (∀ id : Nat, specOffset id 3 = 8 + id * 45) ∧
    specOffset 0 3 = 8 ∧
    Disk.sizeof_size_t = 8 ∧
    (∀ id order : Nat, 3 ≤ order → ∀ v, Disk.calculate_offset id order = some v →
      v + Disk.sizeof_size_t = specOffset id order) := by
  refine ⟨?_, by decide, ?_, by decide, rfl, ?_⟩
  · intro id
    simp [Disk.calculate_offset, Disk.sizeof_size_t, Disk.sizeof_bool, Disk.sizeof_int]
  · intro id
    simp [specOffset, Disk.sizeof_size_t, Disk.sizeof_bool, Disk.sizeof_int]
  · intro id order h3 v hv
    simp only [Disk.calculate_offset, if_neg (by omega : ¬ order < 3)] at hv
    cases hv
    simp [specOffset]
    ring

/-- Claim C7: node_rmleaf of the in-memory variant returns immediately
    whenever the node it is handed IS a leaf (its guard is inverted), so the
    case-1 deletion that invokes it on the leaf containing the key changes
    nothing. -/
theorem c7_rmleaf_inert (node : Mem.MNode) (key : Int) (order : Nat)
    (h : node.is_leaf = true) : Mem.node_rmleaf node key order = node := by
  unfold Mem.node_rmleaf
  rw [if_pos h]

/-- Claim C7, witnessed on the two-key leaf [1, 2]: removing 1 leaves it
    untouched. -/
theorem c7_rmleaf_inert_witness :
    (Mem.MNode.mk 2 [1, 2] [none, none, none] true).is_leaf = true ∧
    Mem.node_rmleaf (Mem.MNode.mk 2 [1, 2] [none, none, none] true) 1 3 =
      Mem.MNode.mk 2 [1, 2] [none, none, none] true :=
  ⟨rfl, c7_rmleaf_inert (Mem.MNode.mk 2 [1, 2] [none, none, none] true) 1 3 rfl⟩

/-- Claim C6: re-inserting a present key makes no structural change.  The
    persistent node_insert overwrites the payload at the found position and
    writes that single node back: every other slot of the store is
    untouched, the found slot holds the found node with only values[pos]
    replaced, and its keys and key count are unchanged.  The in-memory
    node_insert returns 0 and hands back the root unchanged. -/
theorem c6_duplicate_insert :
    (∀ (fuel : Nat) (s : Disk.Store) (root found : Disk.DNode) (pos : Nat)
      (key value : Int) (order : Nat),
      (Disk.node_search order fuel s (some root) key).1 = some (found, pos) →
      (Disk.node_insert fuel s (some root) key value order).1 = BTREE_SUCCESS ∧
      (∀ p, p ≠ found.bin_pos →
        (Disk.node_insert fuel s (some root) key value order).2.1.nodes p = s.nodes p) ∧
      (Disk.node_insert fuel s (some root) key value order).2.1.nodes found.bin_pos =
        some { found with values := found.values.set pos value } ∧
      ({ found with values := found.values.set pos value } : Disk.DNode).keys = found.keys ∧
      ({ found with values := found.values.set pos value } : Disk.DNode).n_keys = found.n_keys ∧
      ({ found with values := found.values.set pos value } : Disk.DNode).children = found.children) ∧
    (∀ (fuel : Nat) (root? : Option Mem.MNode) (key : Int) (order : Nat),
      (Mem.node_search fuel root? key).isSome →
      Mem.node_insert fuel root? key order = some (0, root?)) := by
  constructor
  · intro fuel s root found pos key value order h
    have hd := disk_node_insert_duplicate fuel s root found pos key value order h
    rw [hd]
    refine ⟨rfl, ?_, ?_, rfl, rfl, rfl⟩
    · intro p hp
      exact Disk.nodes_disk_write_ne s _ p hp
    · exact Disk.nodes_disk_write_self s _
  · intro fuel root? key order h
    exact mem_node_insert_duplicate fuel root? key order h

/-- Claim C6, witnessed on a one-key leaf root holding key 10 with payload
    77: re-inserting 10 with payload 99 only rewrites slot 1's payload. -/
theorem c6_duplicate_insert_witness :
    (Disk.node_insert 5
      ⟨fun p => if p = 1 then some ⟨1, [10, -1, -1], [77, -1, -1], 1, [-1, -1, -1, -1], true⟩
                else none, 2, 2⟩
      (some ⟨1, [10, -1, -1], [77, -1, -1], 1, [-1, -1, -1, -1], true⟩) 10 99 4).2.1.nodes 1 =
      some ⟨1, [10, -1, -1], [99, -1, -1], 1, [-1, -1, -1, -1], true⟩ ∧
    Mem.node_insert 5 (some (Mem.MNode.mk 2 [4, 9] [none, none, none] true)) 9 3 =
      some (0, some (Mem.MNode.mk 2 [4, 9] [none, none, none] true)) := by
  constructor
  · have h := (c6_duplicate_insert.1 5
      ⟨fun p => if p = 1 then some ⟨1, [10, -1, -1], [77, -1, -1], 1, [-1, -1, -1, -1], true⟩
                else none, 2, 2⟩
      ⟨1, [10, -1, -1], [77, -1, -1], 1, [-1, -1, -1, -1], true⟩
      ⟨1, [10, -1, -1], [77, -1, -1], 1, [-1, -1, -1, -1], true⟩ 0 10 99 4 (by decide)).2.2.1
    simpa using h
  · exact c6_duplicate_insert.2 5 (some (Mem.MNode.mk 2 [4, 9] [none, none, none] true)) 9 3
      (by rw [show Mem.node_search 5 (some (Mem.MNode.mk 2 [4, 9] [none, none, none] true)) 9 =
        some (Mem.MNode.mk 2 [4, 9] [none, none, none] true, 1) from rfl]; rfl)

/-- Claim C1, refuted at order 3 (odd).  With m = specMid 3 = 0 both halves
    ought to end with 0 keys, the right half ought to receive keys[1..2)
    (one key), and keys[0] ought to be promoted.  The persistent
    node_split_child instead leaves the left half with 1 key and promotes
    keys[1] = 2; the in-memory node_splitch grows a right half with 0 keys,
    losing the key 2 entirely. -/
theorem c1_split_counterexample :
    specMid 3 = 0 ∧
    (Disk.node_split_child
      ⟨fun p => if p = 1 then some ⟨0, [-1, -1], [-1, -1], 1, [2, -1, -1], false⟩
                else if p = 2 then some ⟨2, [1, 2], [1, 2], 2, [-1, -1, -1], true⟩
                else none, 9, 9⟩
      ⟨0, [-1, -1], [-1, -1], 1, [2, -1, -1], false⟩ 0 3
      ⟨2, [1, 2], [1, 2], 2, [-1, -1, -1], true⟩).1 = BTREE_SUCCESS ∧
    ((Disk.node_split_child
      ⟨fun p => if p = 1 then some ⟨0, [-1, -1], [-1, -1], 1, [2, -1, -1], false⟩
                else if p = 2 then some ⟨2, [1, 2], [1, 2], 2, [-1, -1, -1], true⟩
                else none, 9, 9⟩
      ⟨0, [-1, -1], [-1, -1], 1, [2, -1, -1], false⟩ 0 3
      ⟨2, [1, 2], [1, 2], 2, [-1, -1, -1], true⟩).2.2.2).n_keys = 1 ∧
    ¬ (((Disk.node_split_child
      ⟨fun p => if p = 1 then some ⟨0, [-1, -1], [-1, -1], 1, [2, -1, -1], false⟩
                else if p = 2 then some ⟨2, [1, 2], [1, 2], 2, [-1, -1, -1], true⟩
                else none, 9, 9⟩
      ⟨0, [-1, -1], [-1, -1], 1, [2, -1, -1], false⟩ 0 3
      ⟨2, [1, 2], [1, 2], 2, [-1, -1, -1], true⟩).2.2.2).n_keys = specMid 3) ∧
    ((Disk.node_split_child
      ⟨fun p => if p = 1 then some ⟨0, [-1, -1], [-1, -1], 1, [2, -1, -1], false⟩
                else if p = 2 then some ⟨2, [1, 2], [1, 2], 2, [-1, -1, -1], true⟩
                else none, 9, 9⟩
      ⟨0, [-1, -1], [-1, -1], 1, [2, -1, -1], false⟩ 0 3
      ⟨2, [1, 2], [1, 2], 2, [-1, -1, -1], true⟩).2.2.1).keys.getD 0 0 = 2 ∧
    ([1, 2] : List Int).getD (specMid 3) 0 = 1 ∧ ¬ ((2 : Int) = 1) ∧
    ((Mem.node_splitch
      (Mem.MNode.mk 0 [0, 0] [some (Mem.MNode.mk 2 [1, 2] [none, none, none] true),
        none, none] false) 0 3).map
      (fun q => (q.children.getD 1 none).map Mem.MNode.n_keys)) = some (some 0) ∧
    (3 - 1) - (specMid 3 + 1) = 1 ∧ ¬ ((0 : Nat) = 1) := by
  decide

/-- Claim C4, refuted at order 3 (odd).  Merging two one-key siblings around
    separator 20 is claimed to yield a node holding exactly
    2 (ceil(3 / 2) - 1) + 1 = 3 keys — left keys, separator, right keys —
    and to free the right sibling's slot.  The source leaves the merged node
    announcing 3 keys over a two-slot key array that reads [10, 20] (the
    right sibling's key 30 is gone), and slot 3 still holds the right
    sibling's record: nothing was freed. -/
theorem c4_merge_counterexample :
    (2 * ((3 + 1) / 2 - 1) + 1 : Nat) = 3 ∧
    (Disk.node_merge
      ⟨fun p => if p = 1 then some ⟨1, [20, -1], [20, -1], 1, [2, 3, -1], false⟩
                else if p = 2 then some ⟨1, [10, -1], [10, -1], 2, [-1, -1, -1], true⟩
                else if p = 3 then some ⟨1, [30, -1], [30, -1], 3, [-1, -1, -1], true⟩
                else none, 4, 4⟩
      ⟨1, [20, -1], [20, -1], 1, [2, 3, -1], false⟩ 0 3).1 = BTREE_SUCCESS ∧
    (Disk.node_merge
      ⟨fun p => if p = 1 then some ⟨1, [20, -1], [20, -1], 1, [2, 3, -1], false⟩
                else if p = 2 then some ⟨1, [10, -1], [10, -1], 2, [-1, -1, -1], true⟩
                else if p = 3 then some ⟨1, [30, -1], [30, -1], 3, [-1, -1, -1], true⟩
                else none, 4, 4⟩
      ⟨1, [20, -1], [20, -1], 1, [2, 3, -1], false⟩ 0 3).2.nodes 2 =
      some ⟨3, [10, 20], [10, 20], 2, [-1, -1, -1], true⟩ ∧
    ¬ ((30 : Int) ∈ ([10, 20] : List Int)) ∧
    (Disk.node_merge
      ⟨fun p => if p = 1 then some ⟨1, [20, -1], [20, -1], 1, [2, 3, -1], false⟩
                else if p = 2 then some ⟨1, [10, -1], [10, -1], 2, [-1, -1, -1], true⟩
                else if p = 3 then some ⟨1, [30, -1], [30, -1], 3, [-1, -1, -1], true⟩
                else none, 4, 4⟩
      ⟨1, [20, -1], [20, -1], 1, [2, 3, -1], false⟩ 0 3).2.nodes 3 =
      some ⟨1, [30, -1], [30, -1], 3, [-1, -1, -1], true⟩ ∧
    ¬ ((Disk.node_merge
      ⟨fun p => if p = 1 then some ⟨1, [20, -1], [20, -1], 1, [2, 3, -1], false⟩
                else if p = 2 then some ⟨1, [10, -1], [10, -1], 2, [-1, -1, -1], true⟩
                else if p = 3 then some ⟨1, [30, -1], [30, -1], 3, [-1, -1, -1], true⟩
                else none, 4, 4⟩
      ⟨1, [20, -1], [20, -1], 1, [2, 3, -1], false⟩ 0 3).2.nodes 3 = none) := by
  decide

/-- Claim C8, refuted on the persistent variant at order 4: removing the
    absent key 20 from the tree root [10] over leaves [5] and [15] does
    report not-found, but the descent first merges the two leaves, so the
    store is NOT unchanged — the root's slot drops from one key to zero. -/
theorem c8_remove_counterexample :
    (Disk.node_remove 5
      ⟨fun p => if p = 1 then some ⟨1, [10, -1, -1], [10, -1, -1], 1, [2, 3, -1, -1], false⟩
                else if p = 2 then some ⟨1, [5, -1, -1], [5, -1, -1], 2, [-1, -1, -1, -1], true⟩
                else if p = 3 then some ⟨1, [15, -1, -1], [15, -1, -1], 3, [-1, -1, -1, -1], true⟩
                else none, 4, 4⟩
      (some ⟨1, [10, -1, -1], [10, -1, -1], 1, [2, 3, -1, -1], false⟩) 20 4).1 =
      BTREE_ERROR_NOT_FOUND ∧
    (Disk.node_remove 5
      ⟨fun p => if p = 1 then some ⟨1, [10, -1, -1], [10, -1, -1], 1, [2, 3, -1, -1], false⟩
                else if p = 2 then some ⟨1, [5, -1, -1], [5, -1, -1], 2, [-1, -1, -1, -1], true⟩
                else if p = 3 then some ⟨1, [15, -1, -1], [15, -1, -1], 3, [-1, -1, -1, -1], true⟩
                else none, 4, 4⟩
      (some ⟨1, [10, -1, -1], [10, -1, -1], 1, [2, 3, -1, -1], false⟩) 20 4).2.nodes 1 =
      some ⟨0, [-1, -1, -1], [-1, -1, -1], 1, [2, -1, -1, -1], false⟩ ∧
    ¬ ((Disk.node_remove 5
      ⟨fun p => if p = 1 then some ⟨1, [10, -1, -1], [10, -1, -1], 1, [2, 3, -1, -1], false⟩
                else if p = 2 then some ⟨1, [5, -1, -1], [5, -1, -1], 2, [-1, -1, -1, -1], true⟩
                else if p = 3 then some ⟨1, [15, -1, -1], [15, -1, -1], 3, [-1, -1, -1, -1], true⟩
                else none, 4, 4⟩
      (some ⟨1, [10, -1, -1], [10, -1, -1], 1, [2, 3, -1, -1], false⟩) 20 4).2.nodes 1 =
      some ⟨1, [10, -1, -1], [10, -1, -1], 1, [2, 3, -1, -1], false⟩) := by
  decide

/-- Claim C8, amended: removing from an empty tree returns the not-found
    status with the tree untouched in both variants, and the in-memory
    variant also leaves the tree unchanged when the key is merely absent;
    the persistent variant reports not-found through the status but may
    restructure nodes on the way down (the counterexample's merge), so its
    stored bytes are not guaranteed unchanged by a failed removal. -/
theorem c8_remove_amended :
    (∀ (fuel : Nat) (s : Disk.Store) (key : Int) (order : Nat),
      Disk.node_remove (fuel + 1) s none key order = (BTREE_ERROR_NOT_FOUND, s)) ∧
    (∀ (fuel : Nat) (key : Int) (order : Nat),
      Mem.node_remove order (fuel + 1) none key = some (0, none)) ∧
    (∀ (fuel : Nat) (root : Mem.MNode) (key : Int) (order : Nat),
      Mem.node_searchP fuel (some root) key = none →
      Mem.node_remove order (fuel + 1) (some root) key = some (0, some root)) := by
  refine ⟨?_, ?_, ?_⟩
  · intro fuel s key order
    rfl
  · intro fuel key order
    rfl
  · intro fuel root key order h
    simp only [Mem.node_remove, h]

/-- Claim C8 (amended), witnessed: an empty persistent tree answers
    not-found for key 7, an empty in-memory tree answers 0, and removing
    the absent key 99 from the one-key in-memory leaf [5] answers 0 with
    the tree unchanged. -/
theorem c8_remove_amended_witness :
    Disk.node_remove 1 ⟨fun _ => none, 0, 0⟩ none 7 3 =
      (BTREE_ERROR_NOT_FOUND, ⟨fun _ => none, 0, 0⟩) ∧
    Mem.node_remove 3 1 none 7 = some (0, none) ∧
    Mem.node_remove 3 4 (some (Mem.MNode.mk 1 [5, 0] [none, none, none] true)) 99 =
      some (0, some (Mem.MNode.mk 1 [5, 0] [none, none, none] true)) :=
  ⟨c8_remove_amended.1 0 ⟨fun _ => none, 0, 0⟩ 7 3,
   c8_remove_amended.2.1 0 7 3,
   c8_remove_amended.2.2 3 (Mem.MNode.mk 1 [5, 0] [none, none, none] true) 99 3 rfl⟩

/-- Claim C9, refuted on the in-memory variant: inserting 1, 2, 3 into an
    empty order-3 tree leaves the facade counter at 2 although three nodes
    are live (the third insert allocates a new root AND a split node but
    node_insert returns only 1). -/
theorem c9_counter_counterexample :
    ((Mem.btree_insert 10 ⟨3, none, 0⟩ 1).bind (fun t1 =>
      (Mem.btree_insert 10 t1 2).bind (fun t2 =>
        Mem.btree_insert 10 t2 3))).map
      (fun t => (t.n_nodes, Mem.liveNodes 10 t.root)) = some (2, 3) ∧
    ¬ ((2 : Nat) = 3) := by
  decide

/-- Claim C9, amended: the n_nodes counter does not track the node
    population.  The persistent facade adds one per successful insert
    whatever the insert allocated: re-inserting a present key (which
    allocates nothing and only rewrites one payload) still increments
    n_nodes, while the store keeps exactly the same set of occupied
    slots. -/
theorem c9_counter_amended :
    ∀ (fuel : Nat) (tree : Disk.DTree) (root found : Disk.DNode) (pos : Nat)
      (key value : Int),
      tree.root = some root →
      (Disk.node_search tree.order fuel tree.store (some root) key).1 = some (found, pos) →
      (tree.store.nodes found.bin_pos).isSome = true →
      (Disk.btree_insert fuel tree key value).1 = BTREE_SUCCESS ∧
      (Disk.btree_insert fuel tree key value).2.n_nodes = tree.n_nodes + 1 ∧
      (∀ p, ((Disk.btree_insert fuel tree key value).2.store.nodes p).isSome =
        (tree.store.nodes p).isSome) := by
  intro fuel tree root found pos key value hroot hsearch hsome
  have hd := disk_node_insert_duplicate fuel tree.store root found pos key value
    tree.order hsearch
  have hb : Disk.btree_insert fuel tree key value =
      (BTREE_SUCCESS,
        { tree with
          root := if found = root
            then some { found with values := found.values.set pos value }
            else some root
          n_nodes := tree.n_nodes + 1
          store := Disk.update_node_count
            (Disk.disk_write tree.store
              { found with values := found.values.set pos value }) }) := by
    unfold Disk.btree_insert
    rw [hroot, hd]
    rfl
  rw [hb]
  refine ⟨rfl, rfl, ?_⟩
  intro p
  show ((Disk.disk_write tree.store
      { found with values := found.values.set pos value }).nodes p).isSome =
    (tree.store.nodes p).isSome
  by_cases hp : p = found.bin_pos
  · subst hp
    rw [Disk.nodes_disk_write_self]
    simp [hsome]
  · rw [Disk.nodes_disk_write_ne tree.store
      { found with values := found.values.set pos value } p hp]

/-- Claim C9 (amended), witnessed: re-inserting key 10 (present, payload
    77) into the one-node persistent tree bumps n_nodes from 1 to 2 while
    slots 0 and 1 keep their occupancy. -/
theorem c9_counter_amended_witness :
    (Disk.btree_insert 5
      ⟨4, some ⟨1, [10, -1, -1], [77, -1, -1], 1, [-1, -1, -1, -1], true⟩, 1,
        ⟨fun p => if p = 1 then some ⟨1, [10, -1, -1], [77, -1, -1], 1, [-1, -1, -1, -1], true⟩
                  else none, 2, 2⟩⟩ 10 99).1 = BTREE_SUCCESS ∧
    (Disk.btree_insert 5
      ⟨4, some ⟨1, [10, -1, -1], [77, -1, -1], 1, [-1, -1, -1, -1], true⟩, 1,
        ⟨fun p => if p = 1 then some ⟨1, [10, -1, -1], [77, -1, -1], 1, [-1, -1, -1, -1], true⟩
                  else none, 2, 2⟩⟩ 10 99).2.n_nodes = 1 + 1 ∧
    ((Disk.btree_insert 5
      ⟨4, some ⟨1, [10, -1, -1], [77, -1, -1], 1, [-1, -1, -1, -1], true⟩, 1,
        ⟨fun p => if p = 1 then some ⟨1, [10, -1, -1], [77, -1, -1], 1, [-1, -1, -1, -1], true⟩
                  else none, 2, 2⟩⟩ 10 99).2.store.nodes 0).isSome =
      ((⟨fun p => if p = 1 then some ⟨1, [10, -1, -1], [77, -1, -1], 1, [-1, -1, -1, -1], true⟩
                  else none, 2, 2⟩ : Disk.Store).nodes 0).isSome := by
  have h := c9_counter_amended 5
    ⟨4, some ⟨1, [10, -1, -1], [77, -1, -1], 1, [-1, -1, -1, -1], true⟩, 1,
      ⟨fun p => if p = 1 then some ⟨1, [10, -1, -1], [77, -1, -1], 1, [-1, -1, -1, -1], true⟩
                else none, 2, 2⟩⟩
    ⟨1, [10, -1, -1], [77, -1, -1], 1, [-1, -1, -1, -1], true⟩
    ⟨1, [10, -1, -1], [77, -1, -1], 1, [-1, -1, -1, -1], true⟩ 0 10 99 rfl (by decide) rfl
  exact ⟨h.1, h.2.1, h.2.2 0⟩

/-- Claim C1, amended to even orders.  For even order t >= 4 and
    m = specMid t = t / 2 - 1, splitting a full child: the left half ends
    with exactly m keys, keeping keys[0..m) (and children[0..m+1) when
    internal); the newly allocated right half ends with exactly m keys,
    receiving keys[m+1..t-1) (and children[m+1..t)); keys[m] is promoted
    into the parent at position idx, whose child pointer idx+1 now names
    the new node's slot.  Shown for the persistent node_split_child (the
    right half read back from the store where it was written) and for the
    in-memory node_splitch. -/
theorem c1_split_amended :
    (∀ (s : Disk.Store) (parent child : Disk.DNode) (idx order : Nat),
      order % 2 = 0 → 4 ≤ order →
      child.n_keys = order - 1 →
      child.keys.length = order - 1 → child.values.length = order - 1 →
      child.children.length = order →
      parent.keys.length = order - 1 → parent.children.length = order →
      idx ≤ parent.n_keys → parent.n_keys < order - 1 →
      Disk.get_next_bin_pos s ≠ parent.bin_pos →
      (Disk.node_split_child s parent idx order child).1 = BTREE_SUCCESS ∧
      ((Disk.node_split_child s parent idx order child).2.2.2).n_keys = specMid order ∧
      (∀ i, i < specMid order →
        ((Disk.node_split_child s parent idx order child).2.2.2).keys.getD i 0 =
          child.keys.getD i 0) ∧
      (child.is_leaf = false → ∀ i, i ≤ specMid order →
        ((Disk.node_split_child s parent idx order child).2.2.2).children.getD i (-1) =
          child.children.getD i (-1)) ∧
      ((Disk.node_split_child s parent idx order child).2.2.1).n_keys = parent.n_keys + 1 ∧
      ((Disk.node_split_child s parent idx order child).2.2.1).keys.getD idx 0 =
        child.keys.getD (specMid order) 0 ∧
      ((Disk.node_split_child s parent idx order child).2.2.1).children.getD (idx + 1) (-1) =
        ((Disk.get_next_bin_pos s : Nat) : Int) ∧
      (Disk.disk_read ((Disk.node_split_child s parent idx order child).2.1) order
        ((Disk.get_next_bin_pos s : Nat) : Int)).isSome = true ∧
      (∀ nn, Disk.disk_read ((Disk.node_split_child s parent idx order child).2.1) order
          ((Disk.get_next_bin_pos s : Nat) : Int) = some nn →
        nn.n_keys = specMid order ∧
        (∀ i, i < specMid order →
          nn.keys.getD i 0 = child.keys.getD (specMid order + 1 + i) 0) ∧
        (child.is_leaf = false → ∀ i, i ≤ specMid order →
          nn.children.getD i (-1) = child.children.getD (specMid order + 1 + i) (-1)))) ∧
    (∀ (parent child : Mem.MNode) (idx order : Nat),
      order % 2 = 0 → 4 ≤ order →
      parent.children.getD idx none = some child →
      child.n_keys = order - 1 →
      child.keys.length = order - 1 → child.children.length = order →
      parent.keys.length = order - 1 → parent.children.length = order →
      idx ≤ parent.n_keys → parent.n_keys < order - 1 →
      ∀ parent', Mem.node_splitch parent idx order = some parent' →
        parent'.n_keys = parent.n_keys + 1 ∧
        parent'.keys.getD idx 0 = child.keys.getD (specMid order) 0 ∧
        (∀ cl, parent'.children.getD idx none = some cl →
          cl.n_keys = specMid order ∧
          ∀ i, i < specMid order → cl.keys.getD i 0 = child.keys.getD i 0) ∧
        (∀ nn, parent'.children.getD (idx + 1) none = some nn →
          nn.n_keys = specMid order ∧
          (∀ i, i < specMid order →
            nn.keys.getD i 0 = child.keys.getD (specMid order + 1 + i) 0) ∧
          (child.is_leaf = false → ∀ i, i ≤ specMid order →
            nn.children.getD i none = child.children.getD (specMid order + 1 + i) none)) ∧
        (parent'.children.getD idx none).isSome = true ∧
        (parent'.children.getD (idx + 1) none).isSome = true) := by
  constructor
  · intro s parent child idx order he h4 hfull hck hcv hcc hpk hpc hidx hpn hnp
    have h3 : ¬ order < 3 := by omega
    have hng : ¬ idx > parent.n_keys := by omega
    have hm : specMid order = (order + 1) / 2 - 1 := by unfold specMid; omega
    have hmlt : specMid order + 1 = (order + 1) / 2 := by unfold specMid; omega
    have hnewN : child.n_keys - (order + 1) / 2 = specMid order := by
      unfold specMid; omega
    have hkey : Disk.node_split_child s parent idx order child =
        (BTREE_SUCCESS,
         Disk.disk_write (Disk.disk_write (Disk.disk_write s
           ⟨(order + 1) / 2 - 1,
            (copyInto child.keys ((order + 1) / 2)
              (List.replicate (child.n_keys - (order + 1) / 2) (-1))).set
              ((order + 1) / 2 - 1) (-1),
            (copyInto child.values ((order + 1) / 2)
              (List.replicate (child.n_keys - (order + 1) / 2) (-1))).set
              ((order + 1) / 2 - 1) (-1),
            child.bin_pos,
            (if child.is_leaf then child.children
             else copyInto child.children ((order + 1) / 2)
              (List.replicate (child.n_keys - (order + 1) / 2 + 1) (-1))),
            child.is_leaf⟩)
           ⟨child.n_keys - (order + 1) / 2,
            copyInto (List.replicate (order - 1) (-1)) 0
              ((child.keys.drop ((order + 1) / 2)).take (child.n_keys - (order + 1) / 2)),
            copyInto (List.replicate (order - 1) (-1)) 0
              ((child.values.drop ((order + 1) / 2)).take (child.n_keys - (order + 1) / 2)),
            Disk.get_next_bin_pos s,
            (if child.is_leaf then List.replicate order (-1)
             else copyInto (List.replicate order (-1)) 0
              ((child.children.drop ((order + 1) / 2)).take
                (child.n_keys - (order + 1) / 2 + 1))),
            child.is_leaf⟩)
           ⟨parent.n_keys + 1,
            (copyInto parent.keys (idx + 1)
              ((parent.keys.drop idx).take (parent.n_keys - idx))).set idx
              ((copyInto child.keys ((order + 1) / 2)
                (List.replicate (child.n_keys - (order + 1) / 2) (-1))).getD
                ((order + 1) / 2 - 1) 0),
            (copyInto parent.values (idx + 1)
              ((parent.values.drop idx).take (parent.n_keys - idx))).set idx
              ((copyInto child.values ((order + 1) / 2)
                (List.replicate (child.n_keys - (order + 1) / 2) (-1))).getD
                ((order + 1) / 2 - 1) 0),
            parent.bin_pos,
            (copyInto parent.children (idx + 2)
              ((parent.children.drop (idx + 1)).take (parent.n_keys - idx))).set
              (idx + 1) ((Disk.get_next_bin_pos s : Nat) : Int),
            parent.is_leaf⟩,
         ⟨parent.n_keys + 1,
          (copyInto parent.keys (idx + 1)
            ((parent.keys.drop idx).take (parent.n_keys - idx))).set idx
            ((copyInto child.keys ((order + 1) / 2)
              (List.replicate (child.n_keys - (order + 1) / 2) (-1))).getD
              ((order + 1) / 2 - 1) 0),
          (copyInto parent.values (idx + 1)
            ((parent.values.drop idx).take (parent.n_keys - idx))).set idx
            ((copyInto child.values ((order + 1) / 2)
              (List.replicate (child.n_keys - (order + 1) / 2) (-1))).getD
              ((order + 1) / 2 - 1) 0),
          parent.bin_pos,
          (copyInto parent.children (idx + 2)
            ((parent.children.drop (idx + 1)).take (parent.n_keys - idx))).set
            (idx + 1) ((Disk.get_next_bin_pos s : Nat) : Int),
          parent.is_leaf⟩,
         ⟨(order + 1) / 2 - 1,
          (copyInto child.keys ((order + 1) / 2)
            (List.replicate (child.n_keys - (order + 1) / 2) (-1))).set
            ((order + 1) / 2 - 1) (-1),
          (copyInto child.values ((order + 1) / 2)
            (List.replicate (child.n_keys - (order + 1) / 2) (-1))).set
            ((order + 1) / 2 - 1) (-1),
          child.bin_pos,
          (if child.is_leaf then child.children
           else copyInto child.children ((order + 1) / 2)
            (List.replicate (child.n_keys - (order + 1) / 2 + 1) (-1))),
          child.is_leaf⟩) := by
      simp only [Disk.node_split_child, Disk.node_create]
      rw [if_neg hng, if_neg h3]
    rw [hkey]
    refine ⟨rfl, ?_, ?_, ?_, rfl, ?_, ?_, ?_, ?_⟩
    · show (order + 1) / 2 - 1 = specMid order
      omega
    · intro i hi
      show ((copyInto child.keys ((order + 1) / 2)
        (List.replicate (child.n_keys - (order + 1) / 2) (-1))).set
        ((order + 1) / 2 - 1) (-1)).getD i 0 = child.keys.getD i 0
      rw [getD_set_ne (-1) 0 _ ((order + 1) / 2 - 1) i (by omega)]
      exact getD_copyInto_lt 0 _ child.keys ((order + 1) / 2) i (by omega)
    · intro hleaf i hi
      show (if child.is_leaf then child.children
          else copyInto child.children ((order + 1) / 2)
            (List.replicate (child.n_keys - (order + 1) / 2 + 1) (-1))).getD i (-1) =
        child.children.getD i (-1)
      rw [hleaf, if_neg (by simp)]
      exact getD_copyInto_lt (-1) _ child.children ((order + 1) / 2) i (by omega)
    · show ((copyInto parent.keys (idx + 1)
        ((parent.keys.drop idx).take (parent.n_keys - idx))).set idx
        ((copyInto child.keys ((order + 1) / 2)
          (List.replicate (child.n_keys - (order + 1) / 2) (-1))).getD
          ((order + 1) / 2 - 1) 0)).getD idx 0 = child.keys.getD (specMid order) 0
      rw [getD_set_eq _ 0 _ idx (by rw [copyInto_length]; omega)]
      rw [getD_copyInto_lt 0 _ child.keys ((order + 1) / 2) _ (by omega)]
      rw [hm]
    · show ((copyInto parent.children (idx + 2)
        ((parent.children.drop (idx + 1)).take (parent.n_keys - idx))).set
        (idx + 1) ((Disk.get_next_bin_pos s : Nat) : Int)).getD (idx + 1) (-1) =
        ((Disk.get_next_bin_pos s : Nat) : Int)
      exact getD_set_eq _ (-1) _ (idx + 1) (by rw [copyInto_length]; omega)
    · rw [Disk.disk_read_write_ne, Disk.disk_read_write_self]
      all_goals first
        | rfl
        | omega
        | simpa using hnp
    · intro nn hnn
      rw [Disk.disk_read_write_ne, Disk.disk_read_write_self] at hnn
      rotate_left
      · omega
      · simpa using hnp
      · have hnn2 := Option.some_injective _ hnn
        subst hnn2
        refine ⟨by show child.n_keys - (order + 1) / 2 = specMid order; omega, ?_, ?_⟩
        · intro i hi
          show (copyInto (List.replicate (order - 1) (-1)) 0
            ((child.keys.drop ((order + 1) / 2)).take (child.n_keys - (order + 1) / 2))).getD
            i 0 = child.keys.getD (specMid order + 1 + i) 0
          have hcm := getD_copyInto_mid 0
            ((child.keys.drop ((order + 1) / 2)).take (child.n_keys - (order + 1) / 2))
            (List.replicate (order - 1) (-1)) 0 i
            (by
              rw [List.length_take, List.length_drop, hck]
              omega)
            (by rw [List.length_replicate]; omega)
          rw [Nat.zero_add] at hcm
          rw [hcm, getD_take_lt 0 _ _ i (by omega),
            getD_drop 0 child.keys ((order + 1) / 2) i]
          rw [show (order + 1) / 2 + i = specMid order + 1 + i by omega]
        · intro hleaf i hi
          show (if child.is_leaf then List.replicate order (-1)
              else copyInto (List.replicate order (-1)) 0
                ((child.children.drop ((order + 1) / 2)).take
                  (child.n_keys - (order + 1) / 2 + 1))).getD i (-1) =
            child.children.getD (specMid order + 1 + i) (-1)
          rw [hleaf, if_neg (by simp)]
          have hcm := getD_copyInto_mid (-1)
            ((child.children.drop ((order + 1) / 2)).take
              (child.n_keys - (order + 1) / 2 + 1))
            (List.replicate order (-1)) 0 i
            (by
              rw [List.length_take, List.length_drop, hcc]
              omega)
            (by rw [List.length_replicate]; omega)
          rw [Nat.zero_add] at hcm
          rw [hcm, getD_take_lt (-1) _ _ i (by omega),
            getD_drop (-1) child.children ((order + 1) / 2) i]
          rw [show (order + 1) / 2 + i = specMid order + 1 + i by omega]
  · intro parent child idx order he h4 hchild hfull hck hcc hpk hpc hidx hpn
    intro parent' hp
    have h3 : ¬ order < 3 := by omega
    have hmid : order / 2 - 1 = specMid order := rfl
    have hp2 : parent' = Mem.MNode.mk (parent.n_keys + 1)
        ((copyInto parent.keys (idx + 1)
          ((parent.keys.drop idx).take (parent.n_keys - idx))).set idx
          (child.keys.getD (order / 2 - 1) 0))
        (((copyInto parent.children (idx + 2)
          ((parent.children.drop (idx + 1)).take (parent.n_keys - idx))).set
          (idx + 1) (some (Mem.MNode.mk (order / 2 - 1)
            (copyInto (List.replicate (order - 1) 0) 0
              ((child.keys.drop (order / 2)).take (order / 2 - 1)))
            (if child.is_leaf then List.replicate order (none : Option Mem.MNode)
             else copyInto (List.replicate order (none : Option Mem.MNode)) 0
              ((child.children.drop (order / 2)).take (order / 2)))
            child.is_leaf))).set idx
          (some (Mem.MNode.mk (order / 2 - 1) child.keys child.children child.is_leaf)))
        parent.is_leaf := by
      have := hp
      simp only [Mem.node_splitch, hchild, if_neg h3] at this
      exact (Option.some_injective _ this).symm
    subst hp2
    have hlenc : ((copyInto parent.children (idx + 2)
        ((parent.children.drop (idx + 1)).take (parent.n_keys - idx))).set
        (idx + 1) (some (Mem.MNode.mk (order / 2 - 1)
          (copyInto (List.replicate (order - 1) 0) 0
            ((child.keys.drop (order / 2)).take (order / 2 - 1)))
          (if child.is_leaf then List.replicate order (none : Option Mem.MNode)
           else copyInto (List.replicate order (none : Option Mem.MNode)) 0
            ((child.children.drop (order / 2)).take (order / 2)))
          child.is_leaf))).length = order := by
      rw [List.length_set, copyInto_length, hpc]
    refine ⟨rfl, ?_, ?_, ?_, ?_, ?_⟩
    · show ((copyInto parent.keys (idx + 1)
        ((parent.keys.drop idx).take (parent.n_keys - idx))).set idx
        (child.keys.getD (order / 2 - 1) 0)).getD idx 0 =
        child.keys.getD (specMid order) 0
      rw [getD_set_eq _ 0 _ idx (by rw [copyInto_length]; omega), hmid]
    · intro cl hcl
      rw [mem_children_mk] at hcl
      rw [getD_set_eq _ none _ idx (by rw [hlenc]; omega)] at hcl
      have hcl2 := Option.some_injective _ hcl
      subst hcl2
      exact ⟨rfl, fun i hi => rfl⟩
    · intro nn hnn
      rw [mem_children_mk] at hnn
      rw [getD_set_ne _ none _ idx (idx + 1) (by omega)] at hnn
      rw [getD_set_eq _ none _ (idx + 1) (by rw [copyInto_length, hpc]; omega)] at hnn
      have hnn2 := Option.some_injective _ hnn
      subst hnn2
      refine ⟨rfl, ?_, ?_⟩
      · intro i hi
        show (copyInto (List.replicate (order - 1) 0) 0
          ((child.keys.drop (order / 2)).take (order / 2 - 1))).getD i 0 =
          child.keys.getD (specMid order + 1 + i) 0
        have hsm : specMid order = order / 2 - 1 := rfl
        have hcm := getD_copyInto_mid 0
          ((child.keys.drop (order / 2)).take (order / 2 - 1))
          (List.replicate (order - 1) 0) 0 i
          (by rw [List.length_take, List.length_drop, hck]; omega)
          (by rw [List.length_replicate]; omega)
        rw [Nat.zero_add] at hcm
        rw [hcm, getD_take_lt 0 _ _ i (by omega), getD_drop 0 child.keys (order / 2) i]
        rw [show order / 2 + i = specMid order + 1 + i by omega]
      · intro hleaf i hi
        show (if child.is_leaf then List.replicate order (none : Option Mem.MNode)
            else copyInto (List.replicate order (none : Option Mem.MNode)) 0
              ((child.children.drop (order / 2)).take (order / 2))).getD i none =
          child.children.getD (specMid order + 1 + i) none
        rw [hleaf, if_neg (by simp)]
        have hsm : specMid order = order / 2 - 1 := rfl
        have hcm := getD_copyInto_mid (none : Option Mem.MNode)
          ((child.children.drop (order / 2)).take (order / 2))
          (List.replicate order (none : Option Mem.MNode)) 0 i
          (by rw [List.length_take, List.length_drop, hcc]; omega)
          (by rw [List.length_replicate]; omega)
        rw [Nat.zero_add] at hcm
        rw [hcm, getD_take_lt (none : Option Mem.MNode) _ _ i (by omega),
          getD_drop (none : Option Mem.MNode) child.children (order / 2) i]
        rw [show order / 2 + i = specMid order + 1 + i by omega]
    · rw [mem_children_mk]
      rw [getD_set_eq _ none _ idx (by rw [hlenc]; omega)]
      rfl
    · rw [mem_children_mk]
      rw [getD_set_ne _ none _ idx (idx + 1) (by omega)]
      rw [getD_set_eq _ none _ (idx + 1) (by rw [copyInto_length, hpc]; omega)]
      rfl

/-- Claim C1 (amended), witnessed at order 4 (m = 1) on the full leaf child
    [1, 2, 3]: the left half keeps 1 key ([1]), key 2 is promoted into the
    parent at position 0, and the stored right node holds 1 key ([3]); the
    in-memory split of the same child produces the same shape. -/
theorem c1_split_amended_witness :
    ((Disk.node_split_child ⟨fun _ => none, 9, 9⟩
      ⟨0, [-1, -1, -1], [-1, -1, -1], 1, [2, -1, -1, -1], false⟩ 0 4
      ⟨3, [1, 2, 3], [10, 20, 30], 2, [-1, -1, -1, -1], true⟩).2.2.2).n_keys =
      specMid 4 ∧
    ((Disk.node_split_child ⟨fun _ => none, 9, 9⟩
      ⟨0, [-1, -1, -1], [-1, -1, -1], 1, [2, -1, -1, -1], false⟩ 0 4
      ⟨3, [1, 2, 3], [10, 20, 30], 2, [-1, -1, -1, -1], true⟩).2.2.2).keys.getD 0 0 =
      ([1, 2, 3] : List Int).getD 0 0 ∧
    ((Disk.node_split_child ⟨fun _ => none, 9, 9⟩
      ⟨0, [-1, -1, -1], [-1, -1, -1], 1, [2, -1, -1, -1], false⟩ 0 4
      ⟨3, [1, 2, 3], [10, 20, 30], 2, [-1, -1, -1, -1], true⟩).2.2.1).keys.getD 0 0 =
      ([1, 2, 3] : List Int).getD (specMid 4) 0 ∧
    (Disk.disk_read ((Disk.node_split_child ⟨fun _ => none, 9, 9⟩
      ⟨0, [-1, -1, -1], [-1, -1, -1], 1, [2, -1, -1, -1], false⟩ 0 4
      ⟨3, [1, 2, 3], [10, 20, 30], 2, [-1, -1, -1, -1], true⟩).2.1) 4
      ((9 : Nat) : Int)).isSome = true ∧
    (Mem.node_splitch
      (Mem.MNode.mk 0 [0, 0, 0]
        [some (Mem.MNode.mk 3 [1, 2, 3] [none, none, none, none] true),
         none, none, none] false) 0 4 =
      some (Mem.MNode.mk 1 [2, 0, 0]
        [some (Mem.MNode.mk 1 [1, 2, 3] [none, none, none, none] true),
         some (Mem.MNode.mk 1 [3, 0, 0] [none, none, none, none] true),
         none, none] false)) ∧
    (Mem.MNode.mk 1 [2, 0, 0]
        [some (Mem.MNode.mk 1 [1, 2, 3] [none, none, none, none] true),
         some (Mem.MNode.mk 1 [3, 0, 0] [none, none, none, none] true),
         none, none] false).n_keys = 0 + 1 ∧
    (Mem.MNode.mk 1 [2, 0, 0]
        [some (Mem.MNode.mk 1 [1, 2, 3] [none, none, none, none] true),
         some (Mem.MNode.mk 1 [3, 0, 0] [none, none, none, none] true),
         none, none] false).keys.getD 0 0 = ([1, 2, 3] : List Int).getD (specMid 4) 0 := by
  have hD := c1_split_amended.1 ⟨fun _ => none, 9, 9⟩
    ⟨0, [-1, -1, -1], [-1, -1, -1], 1, [2, -1, -1, -1], false⟩
    ⟨3, [1, 2, 3], [10, 20, 30], 2, [-1, -1, -1, -1], true⟩ 0 4
    (by decide) (by decide) (by decide) (by decide) (by decide) (by decide)
    (by decide) (by decide) (by decide) (by decide) (by decide)
  have hM := c1_split_amended.2
    (Mem.MNode.mk 0 [0, 0, 0]
      [some (Mem.MNode.mk 3 [1, 2, 3] [none, none, none, none] true),
       none, none, none] false)
    (Mem.MNode.mk 3 [1, 2, 3] [none, none, none, none] true) 0 4
    (by decide) (by decide) rfl (by decide) (by decide) (by decide) (by decide)
    (by decide) (by decide) (by decide)
    (Mem.MNode.mk 1 [2, 0, 0]
      [some (Mem.MNode.mk 1 [1, 2, 3] [none, none, none, none] true),
       some (Mem.MNode.mk 1 [3, 0, 0] [none, none, none, none] true),
       none, none] false) rfl
  refine ⟨hD.2.1, ?_, hD.2.2.2.2.2.1, hD.2.2.2.2.2.2.2.1, rfl, hM.1, hM.2.1⟩
  have := hD.2.2.1 0 (by decide)
  simpa using this

/-- Claim C2: guarantee-on-descent of the persistent removal.  Under the
    descent invariant -- the node is stored at its own slot, every child of
    the node is readable with at least ceil(order/2) - 1 keys, the children
    sit at pairwise distinct slots, none of which is the node's own slot --
    whenever node_ensure_min_keys succeeds, the child that node_remove then
    re-reads (through the re-read parent u and the pulled-back index idx - 1
    when the last position merged away, idx otherwise) holds at least
    ceil(order/2) keys: the deletion step below cannot underflow it, in all
    paths (already full, borrow from the left or right sibling, merge with
    the right or left sibling). -/
theorem c2_descent_min_keys (s : Disk.Store) (node : Disk.DNode)
    (idx order : Nat)
    (h3 : 3 ≤ order)
    (hidx : idx ≤ node.n_keys)
    (hs : s.nodes node.bin_pos = some node)
    (hI2 : ∀ i, i ≤ node.n_keys →
      ∃ c, Disk.disk_read s order (node.children.getD i (-1)) = some c ∧
        (order + 1) / 2 - 1 ≤ c.n_keys)
    (hdist : ∀ i j, i ≤ node.n_keys → j ≤ node.n_keys → i ≠ j →
      (node.children.getD i (-1)).toNat ≠ (node.children.getD j (-1)).toNat)
    (hpar : ∀ i, i ≤ node.n_keys →
      (node.children.getD i (-1)).toNat ≠ node.bin_pos) :
    (Disk.node_ensure_min_keys s node idx order).1 = BTREE_SUCCESS →
    ∀ u, Disk.disk_read (Disk.node_ensure_min_keys s node idx order).2 order
        (node.bin_pos : Int) = some u →
    ∀ c, Disk.disk_read (Disk.node_ensure_min_keys s node idx order).2 order
        (u.children.getD
          (if idx = node.n_keys ∧ u.n_keys < idx then idx - 1 else idx) (-1)) =
        some c →
      (order + 1) / 2 ≤ c.n_keys := by
  intro hr u hu c hc
  have hno : ¬ ((node.bin_pos : Int) < 0 ∨ order < 3) := by
    push_neg
    exact ⟨Int.natCast_nonneg _, by omega⟩
  obtain ⟨child, hchild, hchI2⟩ := hI2 idx hidx
  have hcb : child.bin_pos = (node.children.getD idx (-1)).toNat :=
    Disk.disk_read_bin_pos s order _ child hchild
  have hcpos : ¬ ((node.children.getD idx (-1)) < 0 ∨ order < 3) :=
    Disk.disk_read_pos_ok s order _ child hchild
  have hgt : ¬ idx > node.n_keys := by omega
  have hself : Disk.disk_read s order (node.bin_pos : Int) = some node := by
    unfold Disk.disk_read
    rw [if_neg hno]
    simp [hs]
  by_cases hfull : (order + 1) / 2 ≤ child.n_keys
  · -- the child already holds enough keys: the store is untouched
    simp only [Disk.node_ensure_min_keys, if_neg hgt, hchild, hfull, if_true,
      ite_true] at hu hc
    rw [hself] at hu
    obtain rfl := Option.some_injective _ hu
    rw [if_neg (show ¬ (idx = node.n_keys ∧ node.n_keys < idx) by omega)] at hc
    rw [hchild] at hc
    obtain rfl := Option.some_injective _ hc
    exact hfull
  · by_cases hpos : 0 < idx
    · obtain ⟨lsib, hlsib, hlsI2⟩ := hI2 (idx - 1) (by omega)
      have hlb : lsib.bin_pos = (node.children.getD (idx - 1) (-1)).toNat :=
        Disk.disk_read_bin_pos s order _ lsib hlsib
      by_cases hlf : (order + 1) / 2 ≤ lsib.n_keys
      · -- borrow from the left sibling
        simp only [Disk.node_ensure_min_keys, if_neg hgt, hchild, hfull, hpos,
          hlsib, hlf, if_true, if_false, ite_true, ite_false] at hu hc
        rw [Disk.disk_read_write_self _ _ order h3] at hu
        obtain rfl := Option.some_injective _ hu
        rw [if_neg (show ¬ (idx = node.n_keys ∧ node.n_keys < idx) by omega)] at hc
        have hx1 : ¬ (child.bin_pos = node.bin_pos) := by
          rw [hcb]
          exact hpar idx hidx
        have hx2 : ¬ (child.bin_pos = lsib.bin_pos) := by
          rw [hcb, hlb]
          exact hdist idx (idx - 1) hidx (by omega) (by omega)
        simp only [Disk.disk_read, Disk.disk_write, if_neg hcpos, ← hcb, hx1, hx2,
          if_false, ite_false, eq_self_iff_true, if_true, ite_true,
          Option.map_some'] at hc
        obtain rfl := Option.some_injective _ hc
        show (order + 1) / 2 ≤ child.n_keys + 1
        omega
      · by_cases hlt : idx < node.n_keys
        · obtain ⟨rsib, hrsib, hrsI2⟩ := hI2 (idx + 1) (by omega)
          have hrb : rsib.bin_pos = (node.children.getD (idx + 1) (-1)).toNat :=
            Disk.disk_read_bin_pos s order _ rsib hrsib
          by_cases hrf : (order + 1) / 2 ≤ rsib.n_keys
          · -- borrow from the right sibling
            simp only [Disk.node_ensure_min_keys, if_neg hgt, hchild, hfull, hpos,
              hlsib, hlf, hlt, hrsib, hrf, if_true, if_false, ite_true,
              ite_false] at hu hc
            rw [Disk.disk_read_write_self _ _ order h3] at hu
            obtain rfl := Option.some_injective _ hu
            rw [if_neg (show ¬ (idx = node.n_keys ∧ node.n_keys < idx) by omega)] at hc
            have hx1 : ¬ (child.bin_pos = node.bin_pos) := by
              rw [hcb]
              exact hpar idx hidx
            have hx2 : ¬ (child.bin_pos = rsib.bin_pos) := by
              rw [hcb, hrb]
              exact hdist idx (idx + 1) hidx (by omega) (by omega)
            simp only [Disk.disk_read, Disk.disk_write, if_neg hcpos, ← hcb, hx1,
              hx2, if_false, ite_false, eq_self_iff_true, if_true, ite_true,
              Option.map_some'] at hc
            obtain rfl := Option.some_injective _ hc
            show (order + 1) / 2 ≤ child.n_keys + 1
            omega
          · -- merge with the right sibling
            have hmg : ¬ (idx ≥ node.n_keys) := by omega
            simp only [Disk.node_ensure_min_keys, Disk.node_merge, if_neg hgt,
              if_neg hmg, hchild, hfull, hpos, hlsib, hlf, hlt, hrsib, hrf,
              if_true, if_false, ite_true, ite_false] at hu hc
            rw [Disk.disk_read_write_self _ _ order h3] at hu
            obtain rfl := Option.some_injective _ hu
            rw [if_neg (show ¬ (idx = node.n_keys ∧ node.n_keys - 1 < idx) by
              omega)] at hc
            rw [getD_set_ne (-1) (-1) _ node.n_keys idx (by omega)] at hc
            rw [getD_copyInto_lt (-1) _ node.children (idx + 1) idx (by omega)] at hc
            have hx1 : ¬ (child.bin_pos = node.bin_pos) := by
              rw [hcb]
              exact hpar idx hidx
            simp only [Disk.disk_read, Disk.disk_write, if_neg hcpos, ← hcb, hx1,
              if_false, ite_false, eq_self_iff_true, if_true, ite_true,
              Option.map_some'] at hc
            obtain rfl := Option.some_injective _ hc
            show (order + 1) / 2 ≤ child.n_keys + rsib.n_keys + 1
            omega
        · -- idx = n_keys: merge with the left sibling
          have hmg : ¬ (idx - 1 ≥ node.n_keys) := by omega
          have hchild2 : Disk.disk_read s order
              (node.children.getD (idx - 1 + 1) (-1)) = some child := by
            rw [show idx - 1 + 1 = idx by omega]
            exact hchild
          simp only [Disk.node_ensure_min_keys, Disk.node_merge, if_neg hgt,
            if_neg hmg, hchild, hfull, hpos, hlsib, hlf, hlt, hchild2,
            if_true, if_false, ite_true, ite_false] at hu hc
          rw [Disk.disk_read_write_self _ _ order h3] at hu
          obtain rfl := Option.some_injective _ hu
          rw [if_pos (show idx = node.n_keys ∧ node.n_keys - 1 < idx from
            ⟨by omega, by omega⟩)] at hc
          rw [getD_set_ne (-1) (-1) _ node.n_keys (idx - 1) (by omega)] at hc
          rw [getD_copyInto_lt (-1) _ node.children (idx - 1 + 1) (idx - 1)
            (by omega)] at hc
          have hlpos : ¬ ((node.children.getD (idx - 1) (-1)) < 0 ∨ order < 3) :=
            Disk.disk_read_pos_ok s order _ lsib hlsib
          have hx1 : ¬ (lsib.bin_pos = node.bin_pos) := by
            rw [hlb]
            exact hpar (idx - 1) (by omega)
          simp only [Disk.disk_read, Disk.disk_write, if_neg hlpos, ← hlb, hx1,
            if_false, ite_false, eq_self_iff_true, if_true, ite_true,
            Option.map_some'] at hc
          obtain rfl := Option.some_injective _ hc
          show (order + 1) / 2 ≤ lsib.n_keys + child.n_keys + 1
          omega
    · by_cases hlt : idx < node.n_keys
      · obtain ⟨rsib, hrsib, hrsI2⟩ := hI2 (idx + 1) (by omega)
        have hrb : rsib.bin_pos = (node.children.getD (idx + 1) (-1)).toNat :=
          Disk.disk_read_bin_pos s order _ rsib hrsib
        by_cases hrf : (order + 1) / 2 ≤ rsib.n_keys
        · -- leftmost child: borrow from the right sibling
          simp only [Disk.node_ensure_min_keys, if_neg hgt, hchild, hfull, hpos,
            hlt, hrsib, hrf, if_true, if_false, ite_true, ite_false] at hu hc
          rw [Disk.disk_read_write_self _ _ order h3] at hu
          obtain rfl := Option.some_injective _ hu
          rw [if_neg (show ¬ (idx = node.n_keys ∧ node.n_keys < idx) by omega)] at hc
          have hx1 : ¬ (child.bin_pos = node.bin_pos) := by
            rw [hcb]
            exact hpar idx hidx
          have hx2 : ¬ (child.bin_pos = rsib.bin_pos) := by
            rw [hcb, hrb]
            exact hdist idx (idx + 1) hidx (by omega) (by omega)
          simp only [Disk.disk_read, Disk.disk_write, if_neg hcpos, ← hcb, hx1,
            hx2, if_false, ite_false, eq_self_iff_true, if_true, ite_true,
            Option.map_some'] at hc
          obtain rfl := Option.some_injective _ hc
          show (order + 1) / 2 ≤ child.n_keys + 1
          omega
        · -- leftmost child: merge with the right sibling
          have hmg : ¬ (idx ≥ node.n_keys) := by omega
          simp only [Disk.node_ensure_min_keys, Disk.node_merge, if_neg hgt,
            if_neg hmg, hchild, hfull, hpos, hlt, hrsib, hrf,
            if_true, if_false, ite_true, ite_false] at hu hc
          rw [Disk.disk_read_write_self _ _ order h3] at hu
          obtain rfl := Option.some_injective _ hu
          rw [if_neg (show ¬ (idx = node.n_keys ∧ node.n_keys - 1 < idx) by
            omega)] at hc
          rw [getD_set_ne (-1) (-1) _ node.n_keys idx (by omega)] at hc
          rw [getD_copyInto_lt (-1) _ node.children (idx + 1) idx (by omega)] at hc
          have hx1 : ¬ (child.bin_pos = node.bin_pos) := by
            rw [hcb]
            exact hpar idx hidx
          simp only [Disk.disk_read, Disk.disk_write, if_neg hcpos, ← hcb, hx1,
            if_false, ite_false, eq_self_iff_true, if_true, ite_true,
            Option.map_some'] at hc
          obtain rfl := Option.some_injective _ hc
          show (order + 1) / 2 ≤ child.n_keys + rsib.n_keys + 1
          omega
      · -- idx = n_keys = 0: the merge guard rejects and the call fails
        have hg : idx - 1 ≥ node.n_keys := by omega
        simp only [Disk.node_ensure_min_keys, Disk.node_merge, if_neg hgt,
          if_pos hg, hchild, hfull, hpos, hlt, if_true, if_false, ite_true,
          ite_false] at hr
        exact absurd hr (by decide)

/-- Claim C2, witnessed at order 4: before descending into the one-key
    leaf [5] under root [20] (sibling [30], also one key), the rebalance
    merges the leaves; the child then re-read for the descent holds
    3 >= ceil(4/2) = 2 keys. -/
theorem c2_descent_min_keys_witness :
    (Disk.node_ensure_min_keys
      ⟨fun p => if p = 1 then some ⟨1, [20, -1, -1], [20, -1, -1], 1, [2, 3, -1, -1], false⟩
                else if p = 2 then some ⟨1, [5, -1, -1], [5, -1, -1], 2, [-1, -1, -1, -1], true⟩
                else if p = 3 then some ⟨1, [30, -1, -1], [30, -1, -1], 3, [-1, -1, -1, -1], true⟩
                else none, 4, 4⟩
      ⟨1, [20, -1, -1], [20, -1, -1], 1, [2, 3, -1, -1], false⟩ 0 4).1 = BTREE_SUCCESS ∧
    (4 + 1) / 2 ≤
      (⟨3, [5, 20, 30], [5, 20, 30], 2, [-1, -1, -1, -1], true⟩ : Disk.DNode).n_keys := by
  constructor
  · decide
  · exact c2_descent_min_keys
      ⟨fun p => if p = 1 then some ⟨1, [20, -1, -1], [20, -1, -1], 1, [2, 3, -1, -1], false⟩
                else if p = 2 then some ⟨1, [5, -1, -1], [5, -1, -1], 2, [-1, -1, -1, -1], true⟩
                else if p = 3 then some ⟨1, [30, -1, -1], [30, -1, -1], 3, [-1, -1, -1, -1], true⟩
                else none, 4, 4⟩
      ⟨1, [20, -1, -1], [20, -1, -1], 1, [2, 3, -1, -1], false⟩ 0 4
      (by decide) (by decide) (by decide)
      (by
        intro i hi
        have hi2 : i ≤ 1 := hi
        interval_cases i
        · exact ⟨⟨1, [5, -1, -1], [5, -1, -1], 2, [-1, -1, -1, -1], true⟩,
            by decide, by decide⟩
        · exact ⟨⟨1, [30, -1, -1], [30, -1, -1], 3, [-1, -1, -1, -1], true⟩,
            by decide, by decide⟩)
      (by
        intro i j hi hj hne
        have hi2 : i ≤ 1 := hi
        have hj2 : j ≤ 1 := hj
        interval_cases i <;> interval_cases j <;>
          first
          | exact absurd rfl hne
          | decide)
      (by
        intro i hi
        have hi2 : i ≤ 1 := hi
        interval_cases i <;> decide)
      (by decide)
      ⟨0, [-1, -1, -1], [-1, -1, -1], 1, [2, -1, -1, -1], false⟩ (by decide)
      ⟨3, [5, 20, 30], [5, 20, 30], 2, [-1, -1, -1, -1], true⟩ (by decide)

/-- Claim C4, amended to even orders and to the slot leak.  For even order
    t, merging the children at idx and idx + 1 (each holding
    ceil(t/2) - 1 keys) around parent separator keys[idx] leaves, at the
    left child's slot, a node of exactly 2 (ceil(t/2) - 1) + 1 keys laid
    out left keys, separator, right keys, with both children's child
    pointers carried over; the parent's slot holds the parent with keys
    and child pointers from idx shifted left by one and n_keys decremented;
    and the right sibling's slot is NOT freed — it still holds exactly the
    bytes it held before. -/
theorem c4_merge_amended :
    ∀ (s : Disk.Store) (parent l r : Disk.DNode) (idx order : Nat),
      order % 2 = 0 → 4 ≤ order →
      idx < parent.n_keys →
      Disk.disk_read s order (parent.children.getD idx (-1)) = some l →
      Disk.disk_read s order (parent.children.getD (idx + 1) (-1)) = some r →
      l.n_keys = (order + 1) / 2 - 1 → r.n_keys = (order + 1) / 2 - 1 →
      l.keys.length = order - 1 → l.values.length = order - 1 →
      l.children.length = order →
      r.keys.length = order - 1 → r.children.length = order →
      parent.keys.length = order - 1 → parent.children.length = order →
      parent.n_keys < order →
      l.bin_pos ≠ parent.bin_pos →
      r.bin_pos ≠ l.bin_pos → r.bin_pos ≠ parent.bin_pos →
      (Disk.node_merge s parent idx order).1 = BTREE_SUCCESS ∧
      (Disk.disk_read (Disk.node_merge s parent idx order).2 order
        (parent.children.getD idx (-1))).isSome = true ∧
      (∀ ml, Disk.disk_read (Disk.node_merge s parent idx order).2 order
          (parent.children.getD idx (-1)) = some ml →
        ml.n_keys = 2 * ((order + 1) / 2 - 1) + 1 ∧
        (∀ i, i < (order + 1) / 2 - 1 → ml.keys.getD i 0 = l.keys.getD i 0) ∧
        ml.keys.getD ((order + 1) / 2 - 1) 0 = parent.keys.getD idx 0 ∧
        (∀ i, i < (order + 1) / 2 - 1 →
          ml.keys.getD ((order + 1) / 2 + i) 0 = r.keys.getD i 0) ∧
        (l.is_leaf = false →
          (∀ i, i < (order + 1) / 2 →
            ml.children.getD i (-1) = l.children.getD i (-1)) ∧
          (∀ i, i < (order + 1) / 2 →
            ml.children.getD ((order + 1) / 2 + i) (-1) = r.children.getD i (-1)))) ∧
      (∀ mp, Disk.disk_read (Disk.node_merge s parent idx order).2 order
          (parent.bin_pos : Int) = some mp →
        mp.n_keys = parent.n_keys - 1 ∧
        (∀ j, j < idx → mp.keys.getD j 0 = parent.keys.getD j 0) ∧
        (∀ j, idx ≤ j → j < parent.n_keys - 1 →
          mp.keys.getD j 0 = parent.keys.getD (j + 1) 0) ∧
        (∀ j, j ≤ idx → mp.children.getD j (-1) = parent.children.getD j (-1)) ∧
        (∀ j, idx < j → j < parent.n_keys →
          mp.children.getD j (-1) = parent.children.getD (j + 1) (-1))) ∧
      ((Disk.node_merge s parent idx order).2).nodes r.bin_pos = s.nodes r.bin_pos := by
  intro s parent l r idx order he h4 hidx hl hr hln hrn hlk hlv hlc hrk hrc hpk hpc
    hpn hblp hbrl hbrp
  have h3 : ¬ order < 3 := by omega
  have hposl := Disk.disk_read_bin_pos s order _ l hl
  have hposr := Disk.disk_read_bin_pos s order _ r hr
  have hkey : Disk.node_merge s parent idx order =
      (BTREE_SUCCESS,
       Disk.disk_write (Disk.disk_write s
         ⟨l.n_keys + r.n_keys + 1,
          copyInto (l.keys.set l.n_keys (parent.keys.getD idx 0)) (l.n_keys + 1)
            (r.keys.take r.n_keys),
          copyInto (l.values.set l.n_keys (parent.values.getD idx 0)) (l.n_keys + 1)
            (r.values.take r.n_keys),
          l.bin_pos,
          (if l.is_leaf then l.children
           else copyInto l.children (l.n_keys + 1) (r.children.take (r.n_keys + 1))),
          l.is_leaf⟩)
         ⟨parent.n_keys - 1,
          (copyInto parent.keys idx
            ((parent.keys.drop (idx + 1)).take (parent.n_keys - 1 - idx))).set
            (parent.n_keys - 1) (-1),
          (copyInto parent.values idx
            ((parent.values.drop (idx + 1)).take (parent.n_keys - 1 - idx))).set
            (parent.n_keys - 1) (-1),
          parent.bin_pos,
          (copyInto parent.children (idx + 1)
            ((parent.children.drop (idx + 2)).take (parent.n_keys - 1 - idx))).set
            parent.n_keys (-1),
          parent.is_leaf⟩) := by
    simp only [Disk.node_merge, hl, hr]
    rw [if_neg (by omega : ¬ idx ≥ parent.n_keys)]
  rw [hkey]
  have hrdl : Disk.disk_read
      (Disk.disk_write (Disk.disk_write s
        ⟨l.n_keys + r.n_keys + 1,
         copyInto (l.keys.set l.n_keys (parent.keys.getD idx 0)) (l.n_keys + 1)
           (r.keys.take r.n_keys),
         copyInto (l.values.set l.n_keys (parent.values.getD idx 0)) (l.n_keys + 1)
           (r.values.take r.n_keys),
         l.bin_pos,
         (if l.is_leaf then l.children
          else copyInto l.children (l.n_keys + 1) (r.children.take (r.n_keys + 1))),
         l.is_leaf⟩)
        ⟨parent.n_keys - 1,
         (copyInto parent.keys idx
           ((parent.keys.drop (idx + 1)).take (parent.n_keys - 1 - idx))).set
           (parent.n_keys - 1) (-1),
         (copyInto parent.values idx
           ((parent.values.drop (idx + 1)).take (parent.n_keys - 1 - idx))).set
           (parent.n_keys - 1) (-1),
         parent.bin_pos,
         (copyInto parent.children (idx + 1)
           ((parent.children.drop (idx + 2)).take (parent.n_keys - 1 - idx))).set
           parent.n_keys (-1),
         parent.is_leaf⟩) order (parent.children.getD idx (-1)) =
      some ⟨l.n_keys + r.n_keys + 1,
        copyInto (l.keys.set l.n_keys (parent.keys.getD idx 0)) (l.n_keys + 1)
          (r.keys.take r.n_keys),
        copyInto (l.values.set l.n_keys (parent.values.getD idx 0)) (l.n_keys + 1)
          (r.values.take r.n_keys),
        l.bin_pos,
        (if l.is_leaf then l.children
         else copyInto l.children (l.n_keys + 1) (r.children.take (r.n_keys + 1))),
        l.is_leaf⟩ := by
    rw [Disk.disk_read_write_ne]
    · exact Disk.disk_read_write_at s _ _ order _ l hl hposl
    · rw [← hposl]
      exact hblp
  refine ⟨rfl, ?_, ?_, ?_, ?_⟩
  · rw [hrdl]
    rfl
  · intro ml hml
    rw [hrdl] at hml
    have hml2 := Option.some_injective _ hml
    subst hml2
    refine ⟨by show l.n_keys + r.n_keys + 1 = _; omega, ?_, ?_, ?_, ?_⟩
    · intro i hi
      show (copyInto (l.keys.set l.n_keys (parent.keys.getD idx 0)) (l.n_keys + 1)
        (r.keys.take r.n_keys)).getD i 0 = l.keys.getD i 0
      rw [getD_copyInto_lt 0 _ _ (l.n_keys + 1) i (by omega)]
      exact getD_set_ne _ 0 l.keys l.n_keys i (by omega)
    · show (copyInto (l.keys.set l.n_keys (parent.keys.getD idx 0)) (l.n_keys + 1)
        (r.keys.take r.n_keys)).getD ((order + 1) / 2 - 1) 0 = parent.keys.getD idx 0
      rw [getD_copyInto_lt 0 _ _ (l.n_keys + 1) _ (by omega)]
      rw [show (order + 1) / 2 - 1 = l.n_keys by omega]
      exact getD_set_eq _ 0 l.keys l.n_keys (by omega)
    · intro i hi
      show (copyInto (l.keys.set l.n_keys (parent.keys.getD idx 0)) (l.n_keys + 1)
        (r.keys.take r.n_keys)).getD ((order + 1) / 2 + i) 0 = r.keys.getD i 0
      have hcm := getD_copyInto_mid 0 (r.keys.take r.n_keys)
        (l.keys.set l.n_keys (parent.keys.getD idx 0)) (l.n_keys + 1) i
        (by rw [List.length_take, hrk]; omega)
        (by rw [List.length_set, hlk]; omega)
      rw [show (order + 1) / 2 + i = l.n_keys + 1 + i by omega]
      rw [hcm]
      exact getD_take_lt 0 r.keys r.n_keys i (by omega)
    · intro hleaf
      constructor
      · intro i hi
        show (if l.is_leaf then l.children
            else copyInto l.children (l.n_keys + 1)
              (r.children.take (r.n_keys + 1))).getD i (-1) = l.children.getD i (-1)
        rw [hleaf, if_neg (by simp)]
        exact getD_copyInto_lt (-1) _ l.children (l.n_keys + 1) i (by omega)
      · intro i hi
        show (if l.is_leaf then l.children
            else copyInto l.children (l.n_keys + 1)
              (r.children.take (r.n_keys + 1))).getD ((order + 1) / 2 + i) (-1) =
          r.children.getD i (-1)
        rw [hleaf, if_neg (by simp)]
        have hcm := getD_copyInto_mid (-1) (r.children.take (r.n_keys + 1))
          l.children (l.n_keys + 1) i
          (by rw [List.length_take, hrc]; omega)
          (by rw [hlc]; omega)
        rw [show (order + 1) / 2 + i = l.n_keys + 1 + i by omega]
        rw [hcm]
        exact getD_take_lt (-1) r.children (r.n_keys + 1) i (by omega)
  · intro mp hmp
    rw [Disk.disk_read_write_self _ _ order (by omega)] at hmp
    have hmp2 := Option.some_injective _ hmp
    subst hmp2
    refine ⟨rfl, ?_, ?_, ?_, ?_⟩
    · intro j hj
      show ((copyInto parent.keys idx
        ((parent.keys.drop (idx + 1)).take (parent.n_keys - 1 - idx))).set
        (parent.n_keys - 1) (-1)).getD j 0 = parent.keys.getD j 0
      rw [getD_set_ne _ 0 _ (parent.n_keys - 1) j (by omega)]
      exact getD_copyInto_lt 0 _ parent.keys idx j (by omega)
    · intro j hj1 hj2
      show ((copyInto parent.keys idx
        ((parent.keys.drop (idx + 1)).take (parent.n_keys - 1 - idx))).set
        (parent.n_keys - 1) (-1)).getD j 0 = parent.keys.getD (j + 1) 0
      rw [getD_set_ne _ 0 _ (parent.n_keys - 1) j (by omega)]
      have hcm := getD_copyInto_mid 0
        ((parent.keys.drop (idx + 1)).take (parent.n_keys - 1 - idx))
        parent.keys idx (j - idx)
        (by rw [List.length_take, List.length_drop, hpk]; omega)
        (by rw [hpk]; omega)
      rw [show j = idx + (j - idx) by omega, hcm]
      rw [getD_take_lt 0 _ _ (j - idx) (by omega)]
      rw [getD_drop 0 parent.keys (idx + 1) (j - idx)]
      rw [show idx + 1 + (j - idx) = idx + (j - idx) + 1 by omega]
    · intro j hj
      show ((copyInto parent.children (idx + 1)
        ((parent.children.drop (idx + 2)).take (parent.n_keys - 1 - idx))).set
        parent.n_keys (-1)).getD j (-1) = parent.children.getD j (-1)
      rw [getD_set_ne _ (-1) _ parent.n_keys j (by omega)]
      exact getD_copyInto_lt (-1) _ parent.children (idx + 1) j (by omega)
    · intro j hj1 hj2
      show ((copyInto parent.children (idx + 1)
        ((parent.children.drop (idx + 2)).take (parent.n_keys - 1 - idx))).set
        parent.n_keys (-1)).getD j (-1) = parent.children.getD (j + 1) (-1)
      rw [getD_set_ne _ (-1) _ parent.n_keys j (by omega)]
      have hcm := getD_copyInto_mid (-1)
        ((parent.children.drop (idx + 2)).take (parent.n_keys - 1 - idx))
        parent.children (idx + 1) (j - idx - 1)
        (by rw [List.length_take, List.length_drop, hpc]; omega)
        (by rw [hpc]; omega)
      rw [show j = idx + 1 + (j - idx - 1) by omega, hcm]
      rw [getD_take_lt (-1) _ _ (j - idx - 1) (by omega)]
      rw [getD_drop (-1) parent.children (idx + 2) (j - idx - 1)]
      rw [show idx + 2 + (j - idx - 1) = idx + 1 + (j - idx - 1) + 1 by omega]
  · show (Disk.disk_write (Disk.disk_write s _) _).nodes r.bin_pos = s.nodes r.bin_pos
    rw [Disk.nodes_disk_write_ne]
    rw [Disk.nodes_disk_write_ne]
    · exact hbrl
    · exact hbrp

/-- Claim C4 (amended), witnessed at order 4: the one-key siblings [10] and
    [30] around separator 20 merge into [10, 20, 30] (three keys) at slot 2,
    the parent shrinks to zero keys, and slot 3 still holds the old right
    sibling record. -/
theorem c4_merge_amended_witness :
    (Disk.node_merge
      ⟨fun p => if p = 1 then some ⟨1, [20, -1, -1], [20, -1, -1], 1, [2, 3, -1, -1], false⟩
                else if p = 2 then some ⟨1, [10, -1, -1], [10, -1, -1], 2, [-1, -1, -1, -1], true⟩
                else if p = 3 then some ⟨1, [30, -1, -1], [30, -1, -1], 3, [-1, -1, -1, -1], true⟩
                else none, 4, 4⟩
      ⟨1, [20, -1, -1], [20, -1, -1], 1, [2, 3, -1, -1], false⟩ 0 4).1 = BTREE_SUCCESS ∧
    (Disk.disk_read (Disk.node_merge
      ⟨fun p => if p = 1 then some ⟨1, [20, -1, -1], [20, -1, -1], 1, [2, 3, -1, -1], false⟩
                else if p = 2 then some ⟨1, [10, -1, -1], [10, -1, -1], 2, [-1, -1, -1, -1], true⟩
                else if p = 3 then some ⟨1, [30, -1, -1], [30, -1, -1], 3, [-1, -1, -1, -1], true⟩
                else none, 4, 4⟩
      ⟨1, [20, -1, -1], [20, -1, -1], 1, [2, 3, -1, -1], false⟩ 0 4).2 4
      (((⟨1, [20, -1, -1], [20, -1, -1], 1, [2, 3, -1, -1], false⟩ : Disk.DNode)).children.getD 0 (-1))).isSome
      = true ∧
    ((Disk.node_merge
      ⟨fun p => if p = 1 then some ⟨1, [20, -1, -1], [20, -1, -1], 1, [2, 3, -1, -1], false⟩
                else if p = 2 then some ⟨1, [10, -1, -1], [10, -1, -1], 2, [-1, -1, -1, -1], true⟩
                else if p = 3 then some ⟨1, [30, -1, -1], [30, -1, -1], 3, [-1, -1, -1, -1], true⟩
                else none, 4, 4⟩
      ⟨1, [20, -1, -1], [20, -1, -1], 1, [2, 3, -1, -1], false⟩ 0 4).2).nodes 3 =
      some ⟨1, [30, -1, -1], [30, -1, -1], 3, [-1, -1, -1, -1], true⟩ := by
  have h := c4_merge_amended
    ⟨fun p => if p = 1 then some ⟨1, [20, -1, -1], [20, -1, -1], 1, [2, 3, -1, -1], false⟩
              else if p = 2 then some ⟨1, [10, -1, -1], [10, -1, -1], 2, [-1, -1, -1, -1], true⟩
              else if p = 3 then some ⟨1, [30, -1, -1], [30, -1, -1], 3, [-1, -1, -1, -1], true⟩
              else none, 4, 4⟩
    ⟨1, [20, -1, -1], [20, -1, -1], 1, [2, 3, -1, -1], false⟩
    ⟨1, [10, -1, -1], [10, -1, -1], 2, [-1, -1, -1, -1], true⟩
    ⟨1, [30, -1, -1], [30, -1, -1], 3, [-1, -1, -1, -1], true⟩ 0 4
    (by decide) (by decide) (by decide) (by decide) (by decide) (by decide)
    (by decide) (by decide) (by decide) (by decide) (by decide) (by decide)
    (by decide) (by decide) (by decide) (by decide) (by decide) (by decide)
  refine ⟨h.1, h.2.1, ?_⟩
  have h5 := h.2.2.2.2
  simpa using h5

/-- Claim C10: in both replacement cases of the internal-node removal, the
    code assigns the replacement key itself to keys[idx] AND to values[idx]
    of the node it writes back, and then recurses to delete that key from
    the child; the payload stored beside the predecessor (resp. successor)
    in its leaf is never copied up, so the moved key's payload becomes the
    key value. -/
theorem c10_internal_replacement :
    (∀ (nrec : Disk.Store → Option Disk.DNode → Int → Nat → Int × Disk.Store)
      (fuel : Nat) (s : Disk.Store) (node lc : Disk.DNode) (idx order : Nat) (p : Int),
      idx < node.n_keys →
      Disk.disk_read s order (node.children.getD idx (-1)) = some lc →
      (order + 1) / 2 ≤ lc.n_keys →
      Disk.node_predecessor fuel s node idx order = Except.ok p →
      lc.bin_pos ≠ node.bin_pos →
      idx < node.keys.length → idx < node.values.length →
      Disk.node_remove_from_internal nrec fuel s node idx order =
        nrec (Disk.disk_write s ⟨node.n_keys, node.keys.set idx p,
          node.values.set idx p, node.bin_pos, node.children, node.is_leaf⟩)
          (some lc) p order ∧
      (node.keys.set idx p).getD idx 0 = p ∧
      (node.values.set idx p).getD idx 0 = p) ∧
    (∀ (nrec : Disk.Store → Option Disk.DNode → Int → Nat → Int × Disk.Store)
      (fuel : Nat) (s : Disk.Store) (node lc rc : Disk.DNode) (idx order : Nat) (sc : Int),
      idx < node.n_keys →
      Disk.disk_read s order (node.children.getD idx (-1)) = some lc →
      lc.n_keys < (order + 1) / 2 →
      Disk.disk_read s order (node.children.getD (idx + 1) (-1)) = some rc →
      (order + 1) / 2 ≤ rc.n_keys →
      Disk.node_successor fuel s node idx order = Except.ok sc →
      rc.bin_pos ≠ node.bin_pos →
      idx < node.keys.length → idx < node.values.length →
      Disk.node_remove_from_internal nrec fuel s node idx order =
        nrec (Disk.disk_write s ⟨node.n_keys, node.keys.set idx sc,
          node.values.set idx sc, node.bin_pos, node.children, node.is_leaf⟩)
          (some rc) sc order ∧
      (node.keys.set idx sc).getD idx 0 = sc ∧
      (node.values.set idx sc).getD idx 0 = sc) := by
  constructor
  · intro nrec fuel s node lc idx order p hidx hlc ht hpred hne hkl hvl
    have hpos := Disk.disk_read_bin_pos s order (node.children.getD idx (-1)) lc hlc
    refine ⟨?_, getD_set_eq p 0 node.keys idx hkl, getD_set_eq p 0 node.values idx hvl⟩
    have hge : ¬ idx ≥ node.n_keys := by omega
    have hread : Disk.disk_read
        (Disk.disk_write s ⟨node.n_keys, node.keys.set idx p,
          node.values.set idx p, node.bin_pos, node.children, node.is_leaf⟩) order
        (node.children.getD idx (-1)) = some lc := by
      rw [Disk.disk_read_write_ne _ _ order _ (by rw [← hpos]; exact hne)]
      exact hlc
    simp only [Disk.node_remove_from_internal, hge, hlc, ht, hpred, hread,
      if_true, if_false, ite_true, ite_false]
  · intro nrec fuel s node lc rc idx order sc hidx hlc hlt hrc ht hsucc hne hkl hvl
    have hpos := Disk.disk_read_bin_pos s order (node.children.getD (idx + 1) (-1)) rc hrc
    refine ⟨?_, getD_set_eq sc 0 node.keys idx hkl, getD_set_eq sc 0 node.values idx hvl⟩
    have hge : ¬ idx ≥ node.n_keys := by omega
    have hlt2 : ¬ (order + 1) / 2 ≤ lc.n_keys := by omega
    have hread : Disk.disk_read
        (Disk.disk_write s ⟨node.n_keys, node.keys.set idx sc,
          node.values.set idx sc, node.bin_pos, node.children, node.is_leaf⟩) order
        (node.children.getD (idx + 1) (-1)) = some rc := by
      rw [Disk.disk_read_write_ne _ _ order _ (by rw [← hpos]; exact hne)]
      exact hrc
    simp only [Disk.node_remove_from_internal, hge, hlc, hlt2, hrc, ht, hsucc, hread,
      if_true, if_false, ite_true, ite_false]

/-- Claim C10, witnessed on both cases at order 4 (minimum-fill threshold
    2): deleting 20 at index 0 of the internal node at slot 1 replaces it
    by predecessor 15 (payload 150 in the leaf) with keys[0] = values[0] =
    15, and in the mirrored store by successor 30 (payload 300) with
    keys[0] = values[0] = 30. -/
theorem c10_internal_replacement_witness :
    (Disk.node_remove_from_internal (fun s2 n2 k2 o2 => Disk.node_remove 4 s2 n2 k2 o2) 4
      ⟨fun p => if p = 1 then some ⟨1, [20, -1, -1], [200, -1, -1], 1, [2, 3, -1, -1], false⟩
                else if p = 2 then some ⟨2, [10, 15, -1], [100, 150, -1], 2, [-1, -1, -1, -1], true⟩
                else if p = 3 then some ⟨1, [30, -1, -1], [300, -1, -1], 3, [-1, -1, -1, -1], true⟩
                else none, 4, 4⟩
      ⟨1, [20, -1, -1], [200, -1, -1], 1, [2, 3, -1, -1], false⟩ 0 4 =
      Disk.node_remove 4
        (Disk.disk_write
          ⟨fun p => if p = 1 then some ⟨1, [20, -1, -1], [200, -1, -1], 1, [2, 3, -1, -1], false⟩
                    else if p = 2 then some ⟨2, [10, 15, -1], [100, 150, -1], 2, [-1, -1, -1, -1], true⟩
                    else if p = 3 then some ⟨1, [30, -1, -1], [300, -1, -1], 3, [-1, -1, -1, -1], true⟩
                    else none, 4, 4⟩
          ⟨1, [15, -1, -1], [15, -1, -1], 1, [2, 3, -1, -1], false⟩)
        (some ⟨2, [10, 15, -1], [100, 150, -1], 2, [-1, -1, -1, -1], true⟩) 15 4 ∧
      ([20, -1, -1] : List Int).set 0 15 = [15, -1, -1] ∧
      ([200, -1, -1] : List Int).set 0 15 = [15, -1, -1]) ∧
    (Disk.node_remove_from_internal (fun s2 n2 k2 o2 => Disk.node_remove 4 s2 n2 k2 o2) 4
      ⟨fun p => if p = 1 then some ⟨1, [20, -1, -1], [200, -1, -1], 1, [2, 3, -1, -1], false⟩
                else if p = 2 then some ⟨1, [10, -1, -1], [100, -1, -1], 2, [-1, -1, -1, -1], true⟩
                else if p = 3 then some ⟨2, [30, 40, -1], [300, 400, -1], 3, [-1, -1, -1, -1], true⟩
                else none, 4, 4⟩
      ⟨1, [20, -1, -1], [200, -1, -1], 1, [2, 3, -1, -1], false⟩ 0 4 =
      Disk.node_remove 4
        (Disk.disk_write
          ⟨fun p => if p = 1 then some ⟨1, [20, -1, -1], [200, -1, -1], 1, [2, 3, -1, -1], false⟩
                    else if p = 2 then some ⟨1, [10, -1, -1], [100, -1, -1], 2, [-1, -1, -1, -1], true⟩
                    else if p = 3 then some ⟨2, [30, 40, -1], [300, 400, -1], 3, [-1, -1, -1, -1], true⟩
                    else none, 4, 4⟩
          ⟨1, [30, -1, -1], [30, -1, -1], 1, [2, 3, -1, -1], false⟩)
        (some ⟨2, [30, 40, -1], [300, 400, -1], 3, [-1, -1, -1, -1], true⟩) 30 4 ∧
      ([20, -1, -1] : List Int).set 0 30 = [30, -1, -1] ∧
      ([200, -1, -1] : List Int).set 0 30 = [30, -1, -1]) := by
  constructor
  · have h := c10_internal_replacement.1
      (fun s2 n2 k2 o2 => Disk.node_remove 4 s2 n2 k2 o2) 4
      ⟨fun p => if p = 1 then some ⟨1, [20, -1, -1], [200, -1, -1], 1, [2, 3, -1, -1], false⟩
                else if p = 2 then some ⟨2, [10, 15, -1], [100, 150, -1], 2, [-1, -1, -1, -1], true⟩
                else if p = 3 then some ⟨1, [30, -1, -1], [300, -1, -1], 3, [-1, -1, -1, -1], true⟩
                else none, 4, 4⟩
      ⟨1, [20, -1, -1], [200, -1, -1], 1, [2, 3, -1, -1], false⟩
      ⟨2, [10, 15, -1], [100, 150, -1], 2, [-1, -1, -1, -1], true⟩ 0 4 15
      (by decide) (by decide) (by decide) rfl (by decide) (by decide) (by decide)
    exact ⟨h.1, rfl, rfl⟩
  · have h := c10_internal_replacement.2
      (fun s2 n2 k2 o2 => Disk.node_remove 4 s2 n2 k2 o2) 4
      ⟨fun p => if p = 1 then some ⟨1, [20, -1, -1], [200, -1, -1], 1, [2, 3, -1, -1], false⟩
                else if p = 2 then some ⟨1, [10, -1, -1], [100, -1, -1], 2, [-1, -1, -1, -1], true⟩
                else if p = 3 then some ⟨2, [30, 40, -1], [300, 400, -1], 3, [-1, -1, -1, -1], true⟩
                else none, 4, 4⟩
      ⟨1, [20, -1, -1], [200, -1, -1], 1, [2, 3, -1, -1], false⟩
      ⟨1, [10, -1, -1], [100, -1, -1], 2, [-1, -1, -1, -1], true⟩
      ⟨2, [30, 40, -1], [300, 400, -1], 3, [-1, -1, -1, -1], true⟩ 0 4 30
      (by decide) (by decide) (by decide) (by decide) (by decide) rfl (by decide)
      (by decide) (by decide)
    exact ⟨h.1, rfl, rfl⟩
